import Mathlib

/-!
The pdtk toolkit: event backend and signal/slot dispatch

A shallow embedding of `specialized/eventbackend.cpp` (flag translation, the epoll,
inotify and process-connector watchers and the `EventBackend` entry points), of
`object.h` (`ProtoObject`, `Object::connect`, `Object::enqueue`), of
`cxxutils/signal_helpers.h`, `asocket.cpp`, `specialized/capabilities.h` and
`process.cpp`, followed by the properties established about them.

Conventions: `posix::fd_t`, `pid_t` and `int` are `Int`; `uint32_t` words are `Nat`
(the constants are below `2 ^ 32` and `|`, `&`, `^` keep words below `2 ^ 32`; the
complement is taken against `0xFFFFFFFF` and the 64-bit sum is reduced modulo
`2 ^ 64`); `errno` is a field of the state.
-/

namespace pdtk

/-! ## Portable flag vocabulary -/

/-- Modelled from the spec: the declaration of `EventFlags_t` (a 32-bit bit-field
struct) is not among the sources.  The flags are the ones of the spec's flag
vocabulary, in the spec's order; `Writeable` is spelled as `eventbackend.cpp` spells it. -/
structure EventFlags_t where
  Error : Bool := false
  Disconnected : Bool := false
  Readable : Bool := false
  Writeable : Bool := false
  EdgeTrigger : Bool := false
  ReadEvent : Bool := false
  WriteEvent : Bool := false
  AttributeMod : Bool := false
  Moved : Bool := false
  ExecEvent : Bool := false
  ExitEvent : Bool := false
  ForkEvent : Bool := false
  UIDEvent : Bool := false
  GIDEvent : Bool := false
  SIDEvent : Bool := false
deriving DecidableEq, Repr

/-- Bit `i` of a flag word when `b` holds. -/
def bit (b : Bool) (i : Nat) : Nat := if b then 2 ^ i else 0

/-- Modelled from the spec: the integer value of an `EventFlags_t` (its conversion to
the `EventFlags` enumeration is not among the sources).  The flags occupy consecutive
bits in the order of the vocabulary, so that every fd and path flag lies below the
`ExecEvent` bit and every process flag at or above it. -/
def EventFlags_t.value (f : EventFlags_t) : Nat :=
  bit f.Error 0 ||| bit f.Disconnected 1 ||| bit f.Readable 2 ||| bit f.Writeable 3 |||
  bit f.EdgeTrigger 4 ||| bit f.ReadEvent 5 ||| bit f.WriteEvent 6 |||
  bit f.AttributeMod 7 ||| bit f.Moved 8 ||| bit f.ExecEvent 9 ||| bit f.ExitEvent 10 |||
  bit f.ForkEvent 11 ||| bit f.UIDEvent 12 ||| bit f.GIDEvent 13 ||| bit f.SIDEvent 14

namespace EventFlags

/-- The flag set `EventFlags::Readable`. -/
def Readable : EventFlags_t := { Readable := true }

/-- The flag set `EventFlags::WriteEvent`. -/
def WriteEvent : EventFlags_t := { WriteEvent := true }

/-- The flag set `EventFlags::ExecEvent`. -/
def ExecEvent : EventFlags_t := { ExecEvent := true }

end EventFlags

/-- A flag set drawn from the fd group only. -/
def EventFlags_t.fdGroup (f : EventFlags_t) : Prop :=
  f.ReadEvent = false ∧ f.WriteEvent = false ∧ f.AttributeMod = false ∧ f.Moved = false ∧
  f.ExecEvent = false ∧ f.ExitEvent = false ∧ f.ForkEvent = false ∧ f.UIDEvent = false ∧
  f.GIDEvent = false ∧ f.SIDEvent = false

/-- A flag set drawn from the file (path) group only. -/
def EventFlags_t.fileGroup (f : EventFlags_t) : Prop :=
  f.Error = false ∧ f.Disconnected = false ∧ f.Readable = false ∧ f.Writeable = false ∧
  f.EdgeTrigger = false ∧
  f.ExecEvent = false ∧ f.ExitEvent = false ∧ f.ForkEvent = false ∧ f.UIDEvent = false ∧
  f.GIDEvent = false ∧ f.SIDEvent = false

/-- A flag set drawn from the process group only. -/
def EventFlags_t.procGroup (f : EventFlags_t) : Prop :=
  f.Error = false ∧ f.Disconnected = false ∧ f.Readable = false ∧ f.Writeable = false ∧
  f.EdgeTrigger = false ∧
  f.ReadEvent = false ∧ f.WriteEvent = false ∧ f.AttributeMod = false ∧ f.Moved = false

instance (f : EventFlags_t) : Decidable f.fdGroup := by
  unfold EventFlags_t.fdGroup; infer_instance

instance (f : EventFlags_t) : Decidable f.fileGroup := by
  unfold EventFlags_t.fileGroup; infer_instance

instance (f : EventFlags_t) : Decidable f.procGroup := by
  unfold EventFlags_t.procGroup; infer_instance

/-- Modelled from the spec: the declaration of `EventData_t` is not among the sources.
A result record carries the observed flags and the optional process payload
`pid, tgid, exit_code, exit_signal`; a default-constructed record is all zero. -/
structure EventData_t where
  flags : EventFlags_t := {}
  pid : Int := 0
  tgid : Int := 0
  code : Int := 0
  signal : Int := 0
deriving DecidableEq, Repr

/-! ## Native flag constants (Linux headers) -/

/-- Constant `EPOLLIN` of `<sys/epoll.h>`. -/
def EPOLLIN : Nat := 0x001
/-- Constant `EPOLLOUT` of `<sys/epoll.h>`. -/
def EPOLLOUT : Nat := 0x004
/-- Constant `EPOLLERR` of `<sys/epoll.h>`. -/
def EPOLLERR : Nat := 0x008
/-- Constant `EPOLLHUP` of `<sys/epoll.h>`. -/
def EPOLLHUP : Nat := 0x010
/-- Constant `EPOLLET` of `<sys/epoll.h>`, `1u << 31`. -/
def EPOLLET : Nat := 0x80000000

/-- Constant `IN_ACCESS` of `<sys/inotify.h>`. -/
def IN_ACCESS : Nat := 0x00000001
/-- Constant `IN_MODIFY` of `<sys/inotify.h>`. -/
def IN_MODIFY : Nat := 0x00000002
/-- Constant `IN_ATTRIB` of `<sys/inotify.h>`. -/
def IN_ATTRIB : Nat := 0x00000004
/-- Constant `IN_MOVE_SELF` of `<sys/inotify.h>`. -/
def IN_MOVE_SELF : Nat := 0x00000800

/-- Constant `proc_event::PROC_EVENT_FORK` of `<linux/cn_proc.h>`. -/
def PROC_EVENT_FORK : Nat := 0x00000001
/-- Constant `proc_event::PROC_EVENT_EXEC` of `<linux/cn_proc.h>`. -/
def PROC_EVENT_EXEC : Nat := 0x00000002
/-- Constant `proc_event::PROC_EVENT_UID` of `<linux/cn_proc.h>`. -/
def PROC_EVENT_UID : Nat := 0x00000004
/-- Constant `proc_event::PROC_EVENT_GID` of `<linux/cn_proc.h>`. -/
def PROC_EVENT_GID : Nat := 0x00000040
/-- Constant `proc_event::PROC_EVENT_SID` of `<linux/cn_proc.h>`. -/
def PROC_EVENT_SID : Nat := 0x00000080
/-- Constant `proc_event::PROC_EVENT_EXIT` of `<linux/cn_proc.h>`. -/
def PROC_EVENT_EXIT : Nat := 0x80000000

/-! ## Flag translation (`eventbackend.cpp`, lines 31-97) -/

/-- The C++ test `flags & MASK ? 1 : 0`. -/
def test (flags mask : Nat) : Bool := flags &&& mask != 0

/-- The C++ operand `flag ? uint32_t(MASK) : 0`. -/
def pick (flag : Bool) (mask : Nat) : Nat := if flag then mask else 0

/-- Source function `from_native_fdflags`: a default-constructed `EventData_t` whose
five fd flags are read off the epoll event word. -/
def from_native_fdflags (flags : Nat) : EventData_t :=
  let data : EventData_t := {}
  { data with flags := { data.flags with
      Error := test flags EPOLLERR
      Disconnected := test flags EPOLLHUP
      Readable := test flags EPOLLIN
      Writeable := test flags EPOLLOUT
      EdgeTrigger := test flags EPOLLET } }

/-- Source function `to_native_fdflags`. -/
def to_native_fdflags (flags : EventFlags_t) : Nat :=
  pick flags.Error EPOLLERR ||| pick flags.Disconnected EPOLLHUP |||
  pick flags.Readable EPOLLIN ||| pick flags.Writeable EPOLLOUT |||
  pick flags.EdgeTrigger EPOLLET

/-- Source function `from_native_fileflags`. -/
def from_native_fileflags (flags : Nat) : EventData_t :=
  let data : EventData_t := {}
  { data with flags := { data.flags with
      ReadEvent := test flags IN_ACCESS
      WriteEvent := test flags IN_MODIFY
      AttributeMod := test flags IN_ATTRIB
      Moved := test flags IN_MOVE_SELF } }

/-- Source function `to_native_fileflags`. -/
def to_native_fileflags (flags : EventFlags_t) : Nat :=
  pick flags.ReadEvent IN_ACCESS ||| pick flags.WriteEvent IN_MODIFY |||
  pick flags.AttributeMod IN_ATTRIB ||| pick flags.Moved IN_MOVE_SELF

/-- Source function `from_native_procflags`; it returns the flag set itself. -/
def from_native_procflags (flags : Nat) : EventFlags_t :=
  let rval : EventFlags_t := {}
  { rval with
    ExecEvent := test flags PROC_EVENT_EXEC
    ExitEvent := test flags PROC_EVENT_EXIT
    ForkEvent := test flags PROC_EVENT_FORK
    UIDEvent := test flags PROC_EVENT_UID
    GIDEvent := test flags PROC_EVENT_GID
    SIDEvent := test flags PROC_EVENT_SID }

/-- Source function `to_native_procflags`. -/
def to_native_procflags (flags : EventFlags_t) : Nat :=
  pick flags.ExecEvent PROC_EVENT_EXEC ||| pick flags.ExitEvent PROC_EVENT_EXIT |||
  pick flags.ForkEvent PROC_EVENT_FORK ||| pick flags.UIDEvent PROC_EVENT_UID |||
  pick flags.GIDEvent PROC_EVENT_GID ||| pick flags.SIDEvent PROC_EVENT_SID

/-! ## POSIX helper constants

`cxxutils/posix_helpers.h` is not among the sources; the values are fixed by the way
the sources use them (`::fork() == posix::success_response` in the child,
`::pipe(..) == posix::error_response`, `epoll_create(..) == posix::invalid_descriptor`). -/

/-- Constant `posix::success_response`. -/
def success_response : Int := 0
/-- Constant `posix::error_response`. -/
def error_response : Int := -1
/-- Constant `posix::invalid_descriptor`. -/
def invalid_descriptor : Int := -1

/-- Constant `ENOENT` of `<errno.h>`. -/
def ENOENT : Nat := 2
/-- Constant `EBADF` of `<errno.h>`. -/
def EBADF : Nat := 9
/-- Constant `EEXIST` of `<errno.h>`. -/
def EEXIST : Nat := 17
/-- Constant `EINVAL` of `<errno.h>`. -/
def EINVAL : Nat := 22

/-! ## Containers

`std::unordered_multimap<K, V>` is a list of pairs: `find` returns the first entry of a
key, `emplace` adds one entry, `erase(key)` drops every entry of the key.
`std::set<fd_t>` is a duplicate-free list. -/

/-- The test `m.find(k) != m.end()`. -/
def hasKey {β : Type} (m : List (Int × β)) (k : Int) : Bool := m.any (fun e => e.1 == k)

/-- The assignment `iter->second = v` for `iter = m.find(k)`: the first entry of `k`
receives the value `v`. -/
def assign {β : Type} : List (Int × β) → Int → β → List (Int × β)
  | [], _, _ => []
  | e :: m, k, v => if e.1 = k then (e.1, v) :: m else e :: assign m k v

/-- The call `m.emplace(k, v)`. -/
def emplace {β : Type} (m : List (Int × β)) (k : Int) (v : β) : List (Int × β) := m ++ [(k, v)]

/-- The call `m.erase(k)` on a multimap: every entry of `k` goes. -/
def eraseKey {β : Type} (m : List (Int × β)) (k : Int) : List (Int × β) :=
  m.filter (fun e => e.1 != k)

/-- The entries of key `k`, as `m.equal_range(k)` lists them. -/
def entriesOf {β : Type} (m : List (Int × β)) (k : Int) : List (Int × β) :=
  m.filter (fun e => e.1 == k)

/-- The entries of every key other than `k`. -/
def entriesOff {β : Type} (m : List (Int × β)) (k : Int) : List (Int × β) :=
  m.filter (fun e => e.1 != k)

/-- The call `fds.emplace(wd)` on a `std::set`. -/
def setEmplace (fds : List Int) (wd : Int) : List Int := if wd ∈ fds then fds else fds ++ [wd]

/-! ## Backend state -/

/-- Everything the backend functions read or write: the build switch, `errno`, the
members of `platform_dependant` together with `EventBackend::queue`, and the two
kernel objects behind `pollnotify.fd` and `fsnotify.fd`. -/
structure State where
  /-- Whether the build defines `ENABLE_PROCESS_EVENT_TRACKING`. -/
  ENABLE_PROCESS_EVENT_TRACKING : Bool
  /-- The thread's `errno`. -/
  errno : Nat
  /-- Kernel side: the interest list of the epoll instance, fd and event word. -/
  interest : List (Int × Nat)
  /-- `EventBackend::queue`, which `pollnotify_t::fds` refers to: the FD map. -/
  queue : List (Int × EventFlags_t)
  /-- `fsnotify_t::fd`, the inotify instance. -/
  fsnotify_fd : Int
  /-- `fsnotify_t::fds`, the path-watch set. -/
  fsnotify_fds : List Int
  /-- Kernel side: the watch descriptors alive in the inotify instance. -/
  watches : List Int
  /-- `procnotify_t::fd`, the process-events socket. -/
  procnotify_fd : Int
  /-- `procnotify_t::events`, the process-watch map. -/
  events : List (Int × EventFlags_t)
deriving DecidableEq, Repr

/-- A backend right after construction: no entry in any map, nothing registered with
the kernel. -/
def State.fresh (tracking : Bool) (fsfd procfd : Int) : State :=
  { ENABLE_PROCESS_EVENT_TRACKING := tracking, errno := 0, interest := [], queue := [],
    fsnotify_fd := fsfd, fsnotify_fds := [], watches := [], procnotify_fd := procfd,
    events := [] }

/-- Modelled from the spec: `posix::success()` belongs to `cxxutils/posix_helpers.h`,
which is not among the sources; it reports success by clearing `errno`. -/
def posix.success (s : State) : State := { s with errno := 0 }

/-! ## Kernel model

Each system call takes, besides its arguments, a `fault`: `some e` makes the call fail
with `errno = e` whatever the state (bad descriptor, no memory, no permission, ...);
`none` lets it act on the kernel object. -/

/-- The operations of `epoll_ctl`. -/
inductive CtlOp where
  | EPOLL_CTL_ADD
  | EPOLL_CTL_MOD
  | EPOLL_CTL_DEL
deriving DecidableEq, Repr

/-- The system call `epoll_ctl(fd, op, wd, &event)` on the interest list: `ADD` fails
with `EEXIST` when `wd` is present, `MOD` and `DEL` fail with `ENOENT` when it is
absent.  Returns the call's result and the new state. -/
def epoll_ctl (s : State) (op : CtlOp) (wd : Int) (event : Nat) (fault : Option Nat) :
    Int × State :=
  match fault with
  | some e => (error_response, { s with errno := e })
  | none =>
    match op with
    | .EPOLL_CTL_ADD =>
      if hasKey s.interest wd then (error_response, { s with errno := EEXIST })
      else (success_response, { s with interest := emplace s.interest wd event })
    | .EPOLL_CTL_MOD =>
      if hasKey s.interest wd then
        (success_response, { s with interest := assign s.interest wd event })
      else (error_response, { s with errno := ENOENT })
    | .EPOLL_CTL_DEL =>
      if hasKey s.interest wd then
        (success_response, { s with interest := eraseKey s.interest wd })
      else (error_response, { s with errno := ENOENT })

/-- The system call `inotify_add_watch(fd, path, mask)`: the kernel answers with a
watch descriptor (`.ok wd`) or refuses (`.error e`). -/
def inotify_add_watch (s : State) (_path : String) (_mask : Nat) (reply : Except Nat Int) :
    Int × State :=
  match reply with
  | .ok wd => (wd, { s with watches := setEmplace s.watches wd })
  | .error e => (error_response, { s with errno := e })

/-- The system call `inotify_rm_watch(fd, wd)`: fails with `EINVAL` when `wd` is not a
watch of the instance. -/
def inotify_rm_watch (s : State) (wd : Int) (fault : Option Nat) : Int × State :=
  match fault with
  | some e => (error_response, { s with errno := e })
  | none =>
    if wd ∈ s.watches then (success_response, { s with watches := s.watches.erase wd })
    else (error_response, { s with errno := EINVAL })

/-! ## `pollnotify_t` (epoll) -/

/-- The condition of the branch "entry exists" of `pollnotify_t::watch`:
`epoll_ctl(MOD) == success || (errno == ENOENT && epoll_ctl(ADD) == success)`. -/
def pollnotify_t.modify_or_add (s : State) (wd : Int) (event : Nat) (o1 o2 : Option Nat) :
    Bool × State :=
  let r1 := epoll_ctl s .EPOLL_CTL_MOD wd event o1
  if r1.1 = success_response then (true, r1.2)
  else if r1.2.errno = ENOENT then
    let r2 := epoll_ctl r1.2 .EPOLL_CTL_ADD wd event o2
    (decide (r2.1 = success_response), r2.2)
  else (false, r1.2)

/-- The condition of the branch "no entry" of `pollnotify_t::watch`:
`epoll_ctl(ADD) == success || (errno == EEXIST && epoll_ctl(MOD) == success)`. -/
def pollnotify_t.add_or_modify (s : State) (wd : Int) (event : Nat) (o1 o2 : Option Nat) :
    Bool × State :=
  let r1 := epoll_ctl s .EPOLL_CTL_ADD wd event o1
  if r1.1 = success_response then (true, r1.2)
  else if r1.2.errno = EEXIST then
    let r2 := epoll_ctl r1.2 .EPOLL_CTL_MOD wd event o2
    (decide (r2.1 = success_response), r2.2)
  else (false, r1.2)

/-- The registration attempt of `pollnotify_t::watch(wd, flags)`: the condition of the
branch the call takes, i.e. whether the wait primitive accepted `wd`. -/
def pollnotify_t.registration (s : State) (wd : Int) (flags : EventFlags_t)
    (o1 o2 : Option Nat) : Bool × State :=
  if hasKey s.queue wd then pollnotify_t.modify_or_add s wd (to_native_fdflags flags) o1 o2
  else pollnotify_t.add_or_modify s wd (to_native_fdflags flags) o1 o2

/-- Source function `pollnotify_t::watch`.  `o1`, `o2` are the faults of the first and
the second `epoll_ctl` call.  The result is `wd` on every path. -/
def pollnotify_t.watch (s : State) (wd : Int) (flags : EventFlags_t) (o1 o2 : Option Nat) :
    Int × State :=
  let native_event := to_native_fdflags flags
  if hasKey s.queue wd then
    let c := pollnotify_t.modify_or_add s wd native_event o1 o2
    if c.1 then (wd, posix.success { c.2 with queue := assign c.2.queue wd flags })
    else (wd, c.2)
  else
    let c := pollnotify_t.add_or_modify s wd native_event o1 o2
    if c.1 then (wd, posix.success { c.2 with queue := emplace c.2.queue wd flags })
    else (wd, c.2)

/-- Source function `pollnotify_t::remove`.  The source tests `iter == fds.end()`, so
`epoll_ctl` is only reached when the FD map has no entry for `wd`; `fds.erase(fds.end())` is then
undefined behaviour, rendered as `none`. -/
def pollnotify_t.remove (s : State) (wd : Int) (o : Option Nat) : Option (Bool × State) :=
  if hasKey s.queue wd then some (false, s)
  else
    let r := epoll_ctl s .EPOLL_CTL_DEL wd 0 o
    if r.1 = success_response then none
    else some (false, r.2)

/-! ## `fsnotify_t` (inotify) -/

/-- Source function `fsnotify_t::watch`. -/
def fsnotify_t.watch (s : State) (path : String) (flags : EventFlags_t)
    (reply : Except Nat Int) : Int × State :=
  let r := inotify_add_watch s path (to_native_fileflags flags) reply
  if r.1 < 0 then (r.1, r.2)
  else (r.1, { r.2 with fsnotify_fds := setEmplace r.2.fsnotify_fds r.1 })

/-- Source function `fsnotify_t::remove`. -/
def fsnotify_t.remove (s : State) (wd : Int) (o : Option Nat) : Bool × State :=
  if wd ∈ s.fsnotify_fds then
    let r := inotify_rm_watch { s with fsnotify_fds := s.fsnotify_fds.erase wd } wd o
    (decide (r.1 = success_response), r.2)
  else (false, s)

/-! ## `procnotify_t` (process events connector) -/

/-- Source function `procnotify_t::watch`. -/
def procnotify_t.watch (s : State) (pid : Int) (flags : EventFlags_t) : Int × State :=
  (pid, { s with events := emplace s.events pid flags })

/-- Source function `procnotify_t::remove`. -/
def procnotify_t.remove (s : State) (pid : Int) : Bool × State :=
  if hasKey s.events pid then (true, { s with events := eraseKey s.events pid })
  else (false, s)

/-! ## `EventBackend` -/

/-- Source function `EventBackend::watch(int target, EventFlags_t flags)`. -/
def EventBackend.watch (s : State) (target : Int) (flags : EventFlags_t)
    (o1 o2 : Option Nat) : Int × State :=
  if flags.value ≥ EventFlags.ExecEvent.value then
    if s.ENABLE_PROCESS_EVENT_TRACKING then procnotify_t.watch s target flags
    else (invalid_descriptor, s)
  else pollnotify_t.watch s target flags o1 o2

/-- Source function `EventBackend::watch(const char* path, EventFlags_t flags)`.
Here `reply` is the kernel's answer to `inotify_add_watch`, `o1`, `o2` the faults of the `epoll_ctl` calls
and `o3` the fault of `inotify_rm_watch`. -/
def EventBackend.watch_path (s : State) (path : String) (flags : EventFlags_t)
    (reply : Except Nat Int) (o1 o2 o3 : Option Nat) : Int × State :=
  let r := fsnotify_t.watch s path flags reply
  if r.1 > 0 then
    let w := EventBackend.watch r.2 r.1 EventFlags.Readable o1 o2
    if w.1 ≤ 0 then (invalid_descriptor, (fsnotify_t.remove w.2 r.1 o3).2)
    else (r.1, w.2)
  else (r.1, r.2)

/-- Source function `EventBackend::remove`.  Without process tracking the source
returns `posix::invalid_descriptor` converted to `bool`. -/
def EventBackend.remove (s : State) (target : Int) (flags : EventFlags_t) (o : Option Nat) :
    Option (Bool × State) :=
  if flags.value ≥ EventFlags.ExecEvent.value then
    if s.ENABLE_PROCESS_EVENT_TRACKING then some (procnotify_t.remove s target)
    else some (invalid_descriptor != 0, s)
  else
    match pollnotify_t.remove s target o with
    | none => none
    | some r => some (r.1 && r.2.errno == 0, r.2)

/-- One call on the epoll watcher, with the faults of its system calls. -/
inductive Call where
  | watch (wd : Int) (flags : EventFlags_t) (o1 o2 : Option Nat)
  | remove (wd : Int) (o : Option Nat)
deriving DecidableEq, Repr

/-- The state after one call; `none` if the call ran into undefined behaviour. -/
def Call.run (s : State) : Call → Option State
  | .watch wd flags o1 o2 => some (pollnotify_t.watch s wd flags o1 o2).2
  | .remove wd o => (pollnotify_t.remove s wd o).map (fun r => r.2)

/-- The state after a sequence of calls made one after the other. -/
def runCalls : State → List Call → Option State
  | s, [] => some s
  | s, c :: cs => (c.run s).bind (fun t => runCalls t cs)

/-- The FD map and the interest list of the wait primitive hold the same descriptors,
and the FD map holds each of them once. -/
def State.consistent (s : State) : Prop :=
  (∀ fd, hasKey s.queue fd = hasKey s.interest fd) ∧ (s.queue.map Prod.fst).Nodup

/-! ## `object.h`: identity tokens, signals and the dispatch queue -/

/-- A `ProtoObject*`: `none` is `nullptr`, `some a` points at address `a`. -/
abbrev Ptr := Option Nat

/-- The storage at one address: whether a `ProtoObject` is alive there (constructed
and not yet destroyed) and the word of its member `self` as last written. -/
structure Cell where
  alive : Bool
  self : Ptr
deriving DecidableEq, Repr

/-- The memory that slots and queued closures act on. -/
structure World where
  /-- The storage at each address. -/
  storage : Nat → Cell
  /-- The lines written by the slots run so far; it stands for their effects. -/
  output : List String

/-- Source function `ProtoObject::ProtoObject`: an object starts to live at `this`,
with `self = this`.  The address may be one whose earlier object is gone. -/
def ProtoObject.construct (w : World) (this : Nat) : World :=
  { w with storage := Function.update w.storage this { alive := true, self := some this } }

/-- Source function `ProtoObject::~ProtoObject`: `self = nullptr`, and the lifetime of
the object ends. -/
def ProtoObject.destroy (w : World) (this : Nat) : World :=
  { w with storage := Function.update w.storage this { alive := false, self := none } }

/-- Type `vfunc`, i.e. `std::function<void()>`: a closure run on the memory; `none` is
undefined behaviour (a read through `nullptr` or of an object that is not alive). -/
abbrev vfunc := World → Option World

/-- The callable of a subscription, `std::function<void(ProtoObject*, ArgTypes...)>`;
`α` is the argument pack. -/
abbrev Callable (α : Type) := Ptr → α → World → Option World

/-- Type `Object::signal<ArgTypes...>`: the list of pairs of owner and callable. -/
abbrev signal (α : Type) := List (Ptr × Callable α)

/-- The lambda stored by the two bound overloads of `Object::connect`:
`if(p == p->self) slot(p, args...)`.  The read `p->self` is defined only while a
`ProtoObject` is alive at `p`; after the destructor it is a read outside the object's
lifetime, and when a later object lives at the same address the read is that object's
`self`. -/
def Object.guarded {α : Type} (slot : Nat → α → World → World) : Callable α :=
  fun p args w =>
    match p with
    | none => none
    | some a =>
      if (w.storage a).alive then
        if p = (w.storage a).self then some (slot a args w) else some w
      else none

/-- The lambda stored by the unbound overload of `Object::connect`: `slot(args...)`. -/
def Object.unguarded {α : Type} (slot : α → World → World) : Callable α :=
  fun _ args w => some (slot args w)

/-- Source function `Object::connect(sig, obj, slot)`, the overloads for a member
function and for a function taking the object: both append the owner with the guarded lambda. -/
def Object.connect {α : Type} (sig : signal α) (obj : Ptr) (slot : Nat → α → World → World) :
    signal α :=
  sig ++ [(obj, Object.guarded slot)]

/-- Source function `Object::connect(sig, slot)`, the overload that ignores the
object: it appends `nullptr` with the unguarded lambda. -/
def Object.connect_function {α : Type} (sig : signal α) (slot : α → World → World) :
    signal α :=
  sig ++ [(none, Object.unguarded slot)]

/-- Library function `std::bind(f, p, args...)`: the closure that calls `f(p, args...)`. -/
def std_bind {α : Type} (f : Callable α) (p : Ptr) (args : α) : vfunc := fun w => f p args w

/-- The `for` loop of `Object::enqueue`.  Each iteration binds
`std::forward<ArgTypes>(args)...`, which hands the caller's arguments to `std::bind` as
rvalues: the closure stores the value `args` and the caller's pack is left as
`moved args` (the identity for reference and trivially copyable argument types). -/
def Object.enqueue.loop {α : Type} (moved : α → α) :
    signal α → α → List vfunc → List vfunc × α
  | [], args, queue => (queue, args)
  | sigpair :: rest, args, queue =>
    Object.enqueue.loop moved rest (moved args) (queue ++ [std_bind sigpair.2 sigpair.1 args])

/-- Source function `Object::enqueue(sig, args...)` on the dispatch queue
`Application::ms_signal_queue`: the result, the queue and the caller's argument pack afterwards.  `Application::step()`
only notifies the loop's condition variable. -/
def Object.enqueue {α : Type} (moved : α → α) (sig : signal α) (args : α)
    (queue : List vfunc) : Bool × List vfunc × α :=
  if sig.isEmpty then (false, queue, args)
  else (true, Object.enqueue.loop moved sig args queue)

/-- The closures one run of the loop of `Object::enqueue` appends: each subscription
in turn, bound to the argument pack as the earlier iterations have left it. -/
def Object.enqueue.closures {α : Type} (moved : α → α) : signal α → α → List vfunc
  | [], _ => []
  | sigpair :: rest, args =>
    std_bind sigpair.2 sigpair.1 args :: Object.enqueue.closures moved rest (moved args)

/-- A subscriber: an object with its slot, or a free function. -/
inductive Subscriber (α : Type) where
  | bound (obj : Nat) (slot : Nat → α → World → World)
  | function (slot : α → World → World)

/-- The signal obtained by connecting the subscribers one after the other. -/
def connectAll {α : Type} (subs : List (Subscriber α)) : signal α :=
  subs.foldl (fun sig sub =>
    match sub with
    | .bound obj slot => Object.connect sig (some obj) slot
    | .function slot => Object.connect_function sig slot) []

/-- The signal entry a subscriber is connected as. -/
def Subscriber.entry {α : Type} : Subscriber α → Ptr × Callable α
  | .bound obj slot => (some obj, Object.guarded slot)
  | .function slot => (none, Object.unguarded slot)

/-- A slot that writes its name and its argument. -/
def echo (name : String) (args : String) (w : World) : World :=
  { w with output := w.output ++ [name ++ args] }

/-- A memory without any object. -/
def World.empty : World :=
  { storage := fun _ => { alive := false, self := none }, output := [] }

/-! ## `EventBackend::getevents` -/

/-- Modelled from the spec: `EventFlags_t::isSet` is declared in the absent header; an
entry matches when its requested flags intersect the observed flags. -/
def EventFlags_t.isSet (requested observed : EventFlags_t) : Bool :=
  requested.value &&& observed.value != 0

/-- A process-event message as `recv` delivers it: the `what` word and the payload.
The members `event_data.id.process_pid` and `event_data.exit.process_pid` of the
kernel's union are the same word, `process_pid`. -/
structure proc_event where
  what : Nat
  process_pid : Int
  process_tgid : Int
  exit_code : Int
  exit_signal : Int
deriving DecidableEq, Repr

/-- One entry of the array `output` that `epoll_wait` fills, together with what its
descriptor delivers when `getevents` handles it. -/
structure Ready where
  /-- The member `data.fd`. -/
  fd : Int
  /-- The member `events`. -/
  events : Nat
  /-- Process socket: the outcomes of the `recv` calls made while `poll` reports more
  messages; `none` is a `recv` that returned nothing. -/
  messages : List (Option proc_event) := []
  /-- Path watcher: the bytes `posix::read` returns, `none` when it fails. -/
  stream : Option (List Nat) := some []
deriving DecidableEq, Repr

/-- The 32-bit little-endian word at offset `off` of a byte buffer (bytes past the end
of the data read are taken as zero). -/
def u32le (bytes : List Nat) (off : Nat) : Nat :=
  bytes.getD off 0 + 256 * bytes.getD (off + 1) 0 + 65536 * bytes.getD (off + 2) 0 +
    16777216 * bytes.getD (off + 3) 0

/-- The size `sizeof(inotify_event)` of the fixed part of a record: `wd`, `mask`,
`cookie` and `len`, four bytes each. -/
def sizeof_inotify_event : Nat := 16

/-- The record loop of the inotify branch of `getevents`:
`for(inpos = buffer; inpos < inend; inpos += sizeof(inotify_event) + incur->len)`
emplacing `(pos->data.fd, from_native_fileflags(incur->mask))`.  The argument `bytes`
is the data from `inpos` to `inend`; `fuel` bounds the iterations. -/
def EventBackend.getevents.records (fd : Int) : Nat → List Nat → List (Int × EventData_t)
  | 0, _ => []
  | fuel + 1, bytes =>
    if 0 < bytes.length then
      (fd, from_native_fileflags (u32le bytes 4)) ::
        EventBackend.getevents.records fd fuel
          (bytes.drop (sizeof_inotify_event + u32le bytes 12))
    else []

/-- The process branch of `getevents`: for every message received, each entry of the
message's pid whose flags match yields a result with the payload. -/
def EventBackend.getevents.process (s : State) :
    List (Option proc_event) → List (Int × EventData_t)
  | [] => []
  | none :: rest => EventBackend.getevents.process s rest
  | some note :: rest =>
    let flags := from_native_procflags note.what
    ((entriesOf s.events note.process_pid).filter (fun pair => pair.2.isSet flags)).map
        (fun pair => (pair.1,
          ({ flags := flags, pid := note.process_pid, tgid := note.process_tgid,
             code := note.exit_code, signal := note.exit_signal } : EventData_t))) ++
      EventBackend.getevents.process s rest

/-- The body of the loop of `getevents` over the ready entries: the results one entry
contributes. -/
def EventBackend.getevents.entry (s : State) (pos : Ready) : List (Int × EventData_t) :=
  if s.ENABLE_PROCESS_EVENT_TRACKING && pos.fd == s.procnotify_fd then
    EventBackend.getevents.process s pos.messages
  else if pos.fd ∈ s.fsnotify_fds then
    match pos.stream with
    | some bytes => EventBackend.getevents.records pos.fd bytes.length bytes
    | none => []
  else [(pos.fd, from_native_fdflags pos.events)]

/-- Source function `pollnotify_t::wait`: the value `epoll_wait` returns.  The kernel
answers `none` on error and otherwise the list of ready entries it stored in `output`. -/
def pollnotify_t.wait (_timeout : Int) (reply : Option (List Ready)) : Int :=
  match reply with
  | none => error_response
  | some output => output.length

/-- Source function `EventBackend::getevents`: the return value and the new content
of `EventBackend::results`.  `results` is the content before the call and `reply` the
kernel's answer to `epoll_wait`; the loop visits the first `count` entries of `output`. -/
def EventBackend.getevents (s : State) (_results : List (Int × EventData_t)) (timeout : Int)
    (reply : Option (List Ready)) : Bool × List (Int × EventData_t) :=
  let count := pollnotify_t.wait timeout reply
  let results : List (Int × EventData_t) := []
  if count = error_response then (false, results)
  else
    (true, results ++
      (((reply.getD []).take count.toNat).map (EventBackend.getevents.entry s)).flatten)

/-- A record of the inotify stream: watch descriptor, mask, cookie, the length `len` of
the name field and the name bytes. -/
structure inotify_event where
  wd : Int
  mask : Nat
  cookie : Nat
  len : Nat
  name : List Nat
deriving DecidableEq, Repr

/-- The four bytes of a 32-bit word, least significant first. -/
def le32 (x : Nat) : List Nat := [x % 256, x / 256 % 256, x / 65536 % 256, x / 16777216 % 256]

/-- The bytes of one record as the kernel writes them. -/
def inotify_event.bytes (e : inotify_event) : List Nat :=
  le32 (e.wd % 4294967296).toNat ++ le32 e.mask ++ le32 e.cookie ++ le32 e.len ++ e.name

/-- A record whose words fit 32 bits and whose name has the announced length. -/
def inotify_event.wellFormed (e : inotify_event) : Prop :=
  e.mask < 4294967296 ∧ e.len < 4294967296 ∧ e.name.length = e.len

instance (e : inotify_event) : Decidable e.wellFormed := by
  unfold inotify_event.wellFormed; infer_instance

/-- Whether a flag set holds at least one flag of the process group. -/
def EventFlags_t.hasProcessFlag (f : EventFlags_t) : Bool :=
  f.ExecEvent || f.ExitEvent || f.ForkEvent || f.UIDEvent || f.GIDEvent || f.SIDEvent

/-! ## `cxxutils/signal_helpers.h` -/

/-- Constant `EINTR` of `<errno.h>`, the value of `posix::errc::interrupted`. -/
def EINTR : Nat := 4

/-- The state a wrapped call runs on: `errno` and whatever else the call acts on. -/
structure Sys (σ : Type) where
  errno : Nat
  kernel : σ
deriving DecidableEq, Repr

/-- The loop condition of `posix::ignore_interruption`, on the outcome of a call:
`error_t(rval) == error_response && errno == posix::errc::interrupted`. -/
def posix.interrupted {σ ρ : Type} (error_t : ρ → Int) (r : ρ × Sys σ) : Prop :=
  error_t r.1 = error_response ∧ r.2.errno = EINTR

instance {σ ρ : Type} (error_t : ρ → Int) (r : ρ × Sys σ) :
    Decidable (posix.interrupted error_t r) := by
  unfold posix.interrupted; infer_instance

/-- Source function `posix::ignore_interruption` (the retrying overload for a value
result): `do rval = func(args...); while(error_t(rval) == error_response && errno ==
interrupted)`.  `error_t` is the conversion of the result type to `error_t`.  The
result is the value returned, the state afterwards and the number of times `func` was
invoked; `none` when `fuel` invocations did not end the loop. -/
def posix.ignore_interruption {α σ ρ : Type} (error_t : ρ → Int)
    (func : α → Sys σ → ρ × Sys σ) (args : α) : Nat → Sys σ → Option (ρ × Sys σ × Nat)
  | 0, _ => none
  | fuel + 1, st =>
    let rval := func args st
    if posix.interrupted error_t rval then
      (posix.ignore_interruption error_t func args fuel rval.2).map
        (fun out => (out.1, out.2.1, out.2.2 + 1))
    else some (rval.1, rval.2, 1)

/-- The state in which the invocation number `k` (counted from zero) of `func(args...)`
starts when every earlier invocation was made from the state its predecessor left. -/
def posix.stateBefore {α σ ρ : Type} (func : α → Sys σ → ρ × Sys σ) (args : α)
    (st : Sys σ) (k : Nat) : Sys σ :=
  (fun s => (func args s).2)^[k] st

/-- A call that is interrupted as long as the kernel counter is positive and then
returns its argument. -/
def flaky (args : Int) (st : Sys Nat) : Int × Sys Nat :=
  if 0 < st.kernel then (error_response, { errno := EINTR, kernel := st.kernel - 1 })
  else (args, st)

/-! ## Two threads in `Object::enqueue` -/

/-- Where a thread stands in `Object::enqueue` on a non-empty signal: before the
`lock_guard` has the mutex of `ms_signal_queue`, inside the critical section with the
closures it still has to emplace, or past the end of the block. -/
inductive Thread where
  | waiting (pending : List vfunc)
  | holding (pending : List vfunc)
  | finished

/-- The object `Application::ms_signal_queue`, a `lockable<std::queue<vfunc>>`: the
queue and the state of its mutex. -/
structure Lockable where
  queue : List vfunc
  locked : Bool

/-- One atomic step of a thread: `lock()` succeeds only on a free mutex and otherwise
leaves the thread waiting; in the critical section one `emplace` per step; after the
last one `Application::step()` and the `unlock()` of the guard. -/
def Thread.step (t : Thread) (m : Lockable) : Thread × Lockable :=
  match t with
  | .waiting pending =>
    if m.locked then (.waiting pending, m) else (.holding pending, { m with locked := true })
  | .holding (c :: pending) => (.holding pending, { m with queue := m.queue ++ [c] })
  | .holding [] => (.finished, { m with locked := false })
  | .finished => (.finished, m)

/-- The thread that has just entered `Object::enqueue(sig, args...)`: an empty signal
makes the call return at once. -/
def Object.enqueue.thread {α : Type} (moved : α → α) (sig : signal α) (args : α) : Thread :=
  if sig.isEmpty then .finished else .waiting (Object.enqueue.closures moved sig args)

/-- Two threads and the shared queue. -/
structure Machine where
  first : Thread
  second : Thread
  shared : Lockable

/-- The machine after the scheduler lets one thread take a step (`true` for the second
thread). -/
def Machine.step (m : Machine) (pick : Bool) : Machine :=
  if pick then
    let r := m.second.step m.shared
    { m with second := r.1, shared := r.2 }
  else
    let r := m.first.step m.shared
    { m with first := r.1, shared := r.2 }

/-- The machine after a schedule. -/
def Machine.run (m : Machine) (schedule : List Bool) : Machine := schedule.foldl Machine.step m

/-- Two concurrent calls of `Object::enqueue` on the queue `queue`. -/
def Machine.start {α β : Type} (moved : α → α) (sig : signal α) (args : α)
    (moved2 : β → β) (sig2 : signal β) (args2 : β) (queue : List vfunc) : Machine :=
  { first := Object.enqueue.thread moved sig args,
    second := Object.enqueue.thread moved2 sig2 args2,
    shared := { queue := queue, locked := false } }

/-- The blocks of two calls are not interleaved in `queue`: after `old` comes a first
part of one block alone, or one whole block followed by a first part of the other. -/
def contiguous (old a b queue : List vfunc) : Prop :=
  (∃ x, x <+: a ∧ queue = old ++ x) ∨ (∃ y, y <+: b ∧ queue = old ++ y) ∨
  (∃ y, y <+: b ∧ queue = old ++ a ++ y) ∨ (∃ x, x <+: a ∧ queue = old ++ b ++ x)

/-- What holds of the machine at every moment of two concurrent calls that append the
blocks `a` and `b` to the queue `old`: never both threads in the critical section, the
mutex locked exactly while one is, and the queue made of whole blocks and the part of
the block the thread in the critical section has appended so far. -/
def Machine.inv (old a b : List vfunc) (m : Machine) : Prop :=
  match m.first, m.second with
  | .waiting p, .waiting p2 =>
    p = a ∧ p2 = b ∧ m.shared.queue = old ∧ m.shared.locked = false
  | .holding p, .waiting p2 =>
    p2 = b ∧ (∃ x, x ++ p = a ∧ m.shared.queue = old ++ x) ∧ m.shared.locked = true
  | .finished, .waiting p2 =>
    p2 = b ∧ m.shared.queue = old ++ a ∧ m.shared.locked = false
  | .waiting p, .holding p2 =>
    p = a ∧ (∃ y, y ++ p2 = b ∧ m.shared.queue = old ++ y) ∧ m.shared.locked = true
  | .waiting p, .finished =>
    p = a ∧ m.shared.queue = old ++ b ∧ m.shared.locked = false
  | .finished, .holding p2 =>
    (∃ y, y ++ p2 = b ∧ m.shared.queue = old ++ a ++ y) ∧ m.shared.locked = true
  | .holding p, .finished =>
    (∃ x, x ++ p = a ∧ m.shared.queue = old ++ b ++ x) ∧ m.shared.locked = true
  | .finished, .finished =>
    (m.shared.queue = old ++ a ++ b ∨ m.shared.queue = old ++ b ++ a) ∧
      m.shared.locked = false
  | .holding _, .holding _ => False

/-! ## `asocket.cpp` -/

/-- The system calls an `AsyncSocket` issues on its sockets. -/
inductive SocketCall where
  | listen (socket : Int) (max_connections : Int)
  | accept (socket : Int)
deriving DecidableEq, Repr

/-- The members of `AsyncSocket` that `listen` and `write` touch, and the system calls
issued so far. -/
structure AsyncSocket where
  m_bound : Bool
  m_connected : Bool
  /-- The member `m_read.socket`. -/
  read_socket : Int
  /-- The member `m_write.fd`. -/
  write_fd : Int
  /-- The member `m_write.buffer`. -/
  write_buffer : List Nat
  /-- How often `m_write.condition.notify_one()` was called. -/
  write_notified : Nat
  calls : List SocketCall
deriving DecidableEq, Repr

/-- Modelled from the spec: `is_bound` is declared in the absent `asocket.h`; it reads
`m_bound`. -/
def AsyncSocket.is_bound (a : AsyncSocket) : Bool := a.m_bound

/-- Modelled from the spec: `is_connected` is declared in the absent `asocket.h`; it
reads `m_connected`, the flag the write thread gates on. -/
def AsyncSocket.is_connected (a : AsyncSocket) : Bool := a.m_connected

/-- Source function `AsyncSocket::listen`.  `ok` is the result of
`posix::listen(m_read.socket, max_connections)`, i.e. whether `listen(2)` succeeded. -/
def AsyncSocket.listen (a : AsyncSocket) (max_connections : Int) (ok : Bool) :
    Bool × AsyncSocket :=
  if !a.is_bound then (false, a)
  else
    (ok, { a with m_connected := ok,
                  calls := a.calls ++ [.listen a.read_socket max_connections] })

/-- Source function `AsyncSocket::write`. -/
def AsyncSocket.write (a : AsyncSocket) (buffer : List Nat) (fd : Int) : Bool × AsyncSocket :=
  if !a.is_connected then (false, a)
  else
    (true, { a with write_fd := fd, write_buffer := buffer,
                    write_notified := a.write_notified + 1 })

/-- A socket that has not been bound. -/
def AsyncSocket.unbound : AsyncSocket :=
  { m_bound := false, m_connected := false, read_socket := 3, write_fd := -1,
    write_buffer := [], write_notified := 0, calls := [] }

/-- A socket after a successful `bind`. -/
def AsyncSocket.bound : AsyncSocket := { AsyncSocket.unbound with m_bound := true }

/-! ## `specialized/capabilities.h` -/

/-- Constant `CAPTYPE_COUNT`: the three capability sets. -/
def CAPTYPE_COUNT : Nat := 3
/-- Constant `_LINUX_CAPABILITY_U32S_3` of `<linux/capability.h>`, the value of
`CAPABILITY_U32S` in the two-word configuration. -/
def CAPABILITY_U32S : Nat := 2
/-- Constant `CAP_EFFECTIVE` of `<sys/capability.h>`. -/
def CAP_EFFECTIVE : Nat := 0
/-- Constant `CAP_PERMITTED` of `<sys/capability.h>`. -/
def CAP_PERMITTED : Nat := 1
/-- Constant `CAP_INHERITABLE` of `<sys/capability.h>`. -/
def CAP_INHERITABLE : Nat := 2

/-- The struct `capability_t`: its member `data` points into the word array of a
`capability_data_t`; the pointer is kept as the offset of the word it points at.  The
array itself (`mem` below) is a list of 32-bit words and a `capflag` is its numeric
value.  A flag whose word lies past the array is outside of what the source defines;
reads there give 0 and writes are dropped. -/
structure capability_t where
  data : Nat
deriving DecidableEq, Repr

/-- The index `(uint32_t(flag) >> 5) * CAPTYPE_COUNT` from the pointer `data`, as an
index into the array. -/
def capability_t.word (c : capability_t) (flag : Nat) : Nat :=
  c.data + (flag >>> 5) * CAPTYPE_COUNT

/-- The operand `1 << (uint32_t(flag) & 0x1F)`, as the 32-bit word it converts to. -/
def capability_t.mask (flag : Nat) : Nat := 1 <<< (flag &&& 0x1F)

/-- Source function `capability_t::isset`. -/
def capability_t.isset (c : capability_t) (mem : List Nat) (flag : Nat) : Bool :=
  mem.getD (c.word flag) 0 &&& capability_t.mask flag != 0

/-- Source function `capability_t::set`: the array afterwards. -/
def capability_t.set (c : capability_t) (mem : List Nat) (flag : Nat) : List Nat :=
  mem.set (c.word flag) (mem.getD (c.word flag) 0 ||| capability_t.mask flag)

/-- Source function `capability_t::unset`: the array afterwards; `~x` on a 32-bit word
is `0xFFFFFFFF ^ x`. -/
def capability_t.unset (c : capability_t) (mem : List Nat) (flag : Nat) : List Nat :=
  mem.set (c.word flag) (mem.getD (c.word flag) 0 &&& (0xFFFFFFFF ^^^ capability_t.mask flag))

/-- Source function `capability_t::toggle`: the array afterwards. -/
def capability_t.toggle (c : capability_t) (mem : List Nat) (flag : Nat) : List Nat :=
  mem.set (c.word flag) (mem.getD (c.word flag) 0 ^^^ capability_t.mask flag)

/-- Source function `capability_t::value` for `CAPABILITY_U32S == 2`:
`(uint64_t(data[0]) << 32) + data[CAPTYPE_COUNT]`, in 64 bits. -/
def capability_t.value (c : capability_t) (mem : List Nat) : Nat :=
  ((mem.getD c.data 0 <<< 32) + mem.getD (c.data + CAPTYPE_COUNT) 0) % 2 ^ 64

/-- The member `effective` of `capability_data_t`: `data + CAP_EFFECTIVE`. -/
def capability_data_t.effective : capability_t := ⟨CAP_EFFECTIVE⟩
/-- The member `permitted` of `capability_data_t`: `data + CAP_PERMITTED`. -/
def capability_data_t.permitted : capability_t := ⟨CAP_PERMITTED⟩
/-- The member `inheritable` of `capability_data_t`: `data + CAP_INHERITABLE`. -/
def capability_data_t.inheritable : capability_t := ⟨CAP_INHERITABLE⟩

/-! ## `process.cpp` -/

/-- The members of `Process` that the path setters touch, with the thread's `errno`. -/
structure Process where
  errno : Nat
  m_executable : String
  m_arguments : List String
  m_workingdir : String
deriving DecidableEq, Repr

/-- Source function `Process::Process`: empty executable, no arguments; `errno` is
whatever the thread holds. -/
def Process.new (errno : Nat) : Process :=
  { errno := errno, m_executable := "", m_arguments := [], m_workingdir := "" }

/-- The system call `stat(path, &statbuf)`: with fault `some e` it fails and sets
`errno = e`; otherwise it succeeds and leaves `errno` alone. -/
def stat (p : Process) (_path : String) (fault : Option Nat) : Int × Process :=
  match fault with
  | some e => (error_response, { p with errno := e })
  | none => (success_response, p)

/-- Source function `Process::setWorkingDirectory`. -/
def Process.setWorkingDirectory (p : Process) (dir : String) (fault : Option Nat) :
    Bool × Process :=
  let r := stat p dir fault
  let q := if r.1 = success_response then { r.2 with m_workingdir := dir } else r.2
  (q.errno == 0, q)

/-- Source function `Process::setExecutable`; `none` is the undefined
`m_arguments.front()` of an empty vector. -/
def Process.setExecutable (p : Process) (executable : String) (fault : Option Nat) :
    Option (Bool × Process) :=
  let r := stat p executable fault
  if r.1 = success_response then
    if r.2.m_executable.isEmpty then
      some (r.2.errno == 0,
        { r.2 with m_arguments := executable :: r.2.m_arguments, m_executable := executable })
    else
      match r.2.m_arguments with
      | [] => none
      | _ :: rest =>
        some (r.2.errno == 0,
          { r.2 with m_arguments := executable :: rest, m_executable := executable })
  else some (r.2.errno == 0, r.2)

/-- Source function `Process::setArguments`. -/
def Process.setArguments (p : Process) (arguments : List String) : Process :=
  if !p.m_executable.isEmpty then { p with m_arguments := p.m_executable :: arguments }
  else { p with m_arguments := arguments }

/-- A call of one of the two setters, `setExecutable` with the fault of its `stat`. -/
inductive ProcessCall where
  | setExecutable (executable : String) (fault : Option Nat)
  | setArguments (arguments : List String)
deriving DecidableEq, Repr

/-- The object after a sequence of setter calls; `none` if one of them ran into
undefined behaviour. -/
def Process.run : Process → List ProcessCall → Option Process
  | p, [] => some p
  | p, .setExecutable e fault :: rest =>
    (p.setExecutable e fault).bind (fun r => Process.run r.2 rest)
  | p, .setArguments a :: rest => Process.run (p.setArguments a) rest

/-- The invariant on `argv[0]`: a non-empty executable is the first argument. -/
def Process.argv0 (p : Process) : Prop :=
  p.m_executable.isEmpty = false → p.m_arguments.head? = some p.m_executable

/-- How the forked child of `Process::start` ends: an `assertE` fails on the named
expression, or the child arrives at the `execve` call. -/
inductive ChildEnd where
  | assertion (expr : String)
  | execve
deriving DecidableEq, Repr

/-- The results of the calls the child makes before `execve`.  `posix::dup2` and
`posix::close` (absent `posix_helpers.h`) answer `true` on success, as the parent
branch of `start` reads them; the system calls answer 0 on success. -/
structure ChildCalls where
  dup2_stdout : Bool
  dup2_stderr : Bool
  close_stdout0 : Bool
  close_stdout1 : Bool
  close_stderr0 : Bool
  close_stderr1 : Bool
  /-- The result of `setrlimit` for the entry of `m_limits` at each position. -/
  setrlimit : Nat → Int
  setuid : Int
  setgid : Int
  seteuid : Int
  setegid : Int

/-- The macro `assertE(expr)`: go on when the value is true, else fail on `expr`. -/
def assertE (rval : Bool) (expr : String) : Except String Unit :=
  if rval then pure () else throw expr

/-- The loop `for(auto& limit : m_limits) assertE(::setrlimit(..) != success_response)`
of the child, from position `i` on. -/
def Process.start.limits (calls : ChildCalls) : Nat → List (Int × Nat × Nat) → Except String Unit
  | _, [] => pure ()
  | i, _ :: rest => do
    assertE (calls.setrlimit i != success_response) "::setrlimit(limit.first, &limit.second) != posix::success_response"
    Process.start.limits calls (i + 1) rest

/-- The checks of the child branch of `Process::start` up to the `execve` call. -/
def Process.start.checks (m_limits : List (Int × Nat × Nat)) (m_uid m_gid m_euid m_egid : Nat)
    (calls : ChildCalls) : Except String Unit := do
  assertE calls.dup2_stdout "posix::dup2(pipe_stdout[1], STDOUT_FILENO)"
  assertE calls.dup2_stderr "posix::dup2(pipe_stderr[1], STDERR_FILENO)"
  assertE calls.close_stdout0 "posix::close(pipe_stdout[0])"
  assertE calls.close_stdout1 "posix::close(pipe_stdout[1])"
  assertE calls.close_stderr0 "posix::close(pipe_stderr[0])"
  assertE calls.close_stderr1 "posix::close(pipe_stderr[1])"
  Process.start.limits calls 0 m_limits
  if m_uid != 0 then assertE (calls.setuid == success_response) "::setuid(m_uid) == posix::success_response"
  if m_gid != 0 then assertE (calls.setgid == success_response) "::setgid(m_gid) == posix::success_response"
  if m_euid != 0 then assertE (calls.seteuid == success_response) "::seteuid(m_euid) == posix::success_response"
  if m_egid != 0 then assertE (calls.setegid == success_response) "::setegid(m_egid) == posix::success_response"

/-- Source function `Process::start`, the branch `m_pid == 0` of the forked child. -/
def Process.start.child (m_limits : List (Int × Nat × Nat)) (m_uid m_gid m_euid m_egid : Nat)
    (calls : ChildCalls) : ChildEnd :=
  match Process.start.checks m_limits m_uid m_gid m_euid m_egid calls with
  | .error expr => .assertion expr
  | .ok _ => .execve

/-- The child's calls when every one of them succeeds. -/
def ChildCalls.allSucceed : ChildCalls :=
  { dup2_stdout := true, dup2_stderr := true, close_stdout0 := true, close_stdout1 := true,
    close_stderr0 := true, close_stderr1 := true, setrlimit := fun _ => success_response,
    setuid := success_response, setgid := success_response, seteuid := success_response,
    setegid := success_response }

/-- The calls used to exercise the setters: arguments first, a refused and an accepted
executable, then another accepted executable. -/
def ProcessCall.sample : List ProcessCall :=
  [.setArguments ["-l"], .setExecutable "/nowhere" (some ENOENT),
   .setExecutable "/bin/ls" none, .setExecutable "/bin/cat" none]

/-- The object the sample calls lead to. -/
def Process.sample : Process :=
  { errno := ENOENT, m_executable := "/bin/cat", m_arguments := ["/bin/cat", "-l"],
    m_workingdir := "" }

/-- A fresh object on which `setWorkingDirectory("/tmp")` took effect. -/
def Process.inTmp (errno : Nat) : Process := { Process.new errno with m_workingdir := "/tmp" }

/-- A fresh object on which `setExecutable("/bin/ls")` took effect. -/
def Process.withLs (errno : Nat) : Process :=
  { Process.new errno with m_executable := "/bin/ls", m_arguments := ["/bin/ls"] }

/-- A six-word capability array with bits in all three sets. -/
def capability_data_t.sample : List Nat := [5, 0, 7, 0, 0, 9]

/-- A memory with two live objects, at the addresses 1 and 2. -/
def World.twoObjects : World := ProtoObject.construct (ProtoObject.construct World.empty 1) 2

/-- The dispatch queue after one `enqueue` of `"abc"` on a signal to which object 1
with slot `A` and object 2 with slot `B` were connected, in that order. -/
def World.queued : List vfunc :=
  (Object.enqueue id
    (Object.connect (Object.connect [] (some 1) (fun _ => echo "A:")) (some 2)
      (fun _ => echo "B:")) "abc" []).2.1

/-- A backend after four successful path watches on a fresh backend whose inotify
instance is fd 4: the kernel handed out the watch descriptors 1 to 4 and every
`epoll_ctl` registration was accepted. -/
def State.fourWatches : State :=
  [("/tmp/a", (1 : Int)), ("/tmp/b", 2), ("/tmp/c", 3), ("/tmp/d", 4)].foldl
    (fun s w => (EventBackend.watch_path s w.1 EventFlags.WriteEvent (.ok w.2)
      none none none).2) (State.fresh true 4 6)

/-- The record the kernel writes when the file of watch 2 is modified. -/
def inotify_event.modified : inotify_event :=
  { wd := 2, mask := IN_MODIFY, cookie := 0, len := 0, name := [] }

/-- The wakeup that follows: epoll reports descriptor 4 readable and reading it
yields the record of watch 2. -/
def Ready.modified : Ready :=
  { fd := 4, events := EPOLLIN, stream := some inotify_event.modified.bytes }

/-! ## Flag translation round trip -/

/-- C2: for each of the three translation pairs and every portable flag set drawn from
that pair's group only, translating to the native word and back yields exactly the
original flag set. -/
theorem flag_translation_round_trip (f : EventFlags_t) :
    (f.fdGroup → (from_native_fdflags (to_native_fdflags f)).flags = f) ∧
    (f.fileGroup → (from_native_fileflags (to_native_fileflags f)).flags = f) ∧
    (f.procGroup → from_native_procflags (to_native_procflags f) = f) := by
  obtain ⟨a1, a2, a3, a4, a5, b1, b2, b3, b4, c1, c2, c3, c4, c5, c6⟩ := f
  refine ⟨?_, ?_, ?_⟩
  · rintro ⟨h1, h2, h3, h4, h5, h6, h7, h8, h9, h10⟩
    simp only at h1 h2 h3 h4 h5 h6 h7 h8 h9 h10
    subst h1 h2 h3 h4 h5 h6 h7 h8 h9 h10
    revert a1 a2 a3 a4 a5
    decide
  · rintro ⟨h1, h2, h3, h4, h5, h6, h7, h8, h9, h10, h11⟩
    simp only at h1 h2 h3 h4 h5 h6 h7 h8 h9 h10 h11
    subst h1 h2 h3 h4 h5 h6 h7 h8 h9 h10 h11
    revert b1 b2 b3 b4
    decide
  · rintro ⟨h1, h2, h3, h4, h5, h6, h7, h8, h9⟩
    simp only at h1 h2 h3 h4 h5 h6 h7 h8 h9
    subst h1 h2 h3 h4 h5 h6 h7 h8 h9
    revert c1 c2 c3 c4 c5 c6
    decide


/-- C2, at concrete flag sets: one application of the round trip in each group. -/
theorem flag_translation_round_trip_witness :
    (from_native_fdflags (to_native_fdflags
      { Error := true, Readable := true, EdgeTrigger := true })).flags =
      { Error := true, Readable := true, EdgeTrigger := true } ∧
    (from_native_fileflags (to_native_fileflags
      { WriteEvent := true, Moved := true })).flags = { WriteEvent := true, Moved := true } ∧
    from_native_procflags (to_native_procflags { ExitEvent := true, SIDEvent := true }) =
      { ExitEvent := true, SIDEvent := true } :=
  ⟨(flag_translation_round_trip _).1 (by decide),
   (flag_translation_round_trip _).2.1 (by decide),
   (flag_translation_round_trip _).2.2 (by decide)⟩

/-! ## Lemmas on the containers -/

theorem hasKey_nil {β : Type} (k : Int) : hasKey ([] : List (Int × β)) k = false := rfl

theorem hasKey_cons {β : Type} (e : Int × β) (m : List (Int × β)) (k : Int) :
    hasKey (e :: m) k = (e.1 == k || hasKey m k) := by
  simp [hasKey]

theorem hasKey_assign {β : Type} (m : List (Int × β)) (k : Int) (v : β) (j : Int) :
    hasKey (assign m k v) j = hasKey m j := by
  induction m with
  | nil => rfl
  | cons e m ih =>
    unfold assign
    split_ifs with h
    · simp [hasKey_cons]
    · simp [hasKey_cons, ih]

theorem hasKey_emplace {β : Type} (m : List (Int × β)) (k : Int) (v : β) (j : Int) :
    hasKey (emplace m k v) j = (hasKey m j || k == j) := by
  simp [hasKey, emplace]

theorem keys_assign {β : Type} (m : List (Int × β)) (k : Int) (v : β) :
    (assign m k v).map Prod.fst = m.map Prod.fst := by
  induction m with
  | nil => rfl
  | cons e m ih =>
    unfold assign
    split_ifs with h
    · simp
    · simp [ih]

theorem hasKey_iff {β : Type} (m : List (Int × β)) (k : Int) :
    hasKey m k = true ↔ k ∈ m.map Prod.fst := by
  simp only [hasKey, List.any_eq_true, List.mem_map, beq_iff_eq]

theorem entriesOff_assign {β : Type} (m : List (Int × β)) (k : Int) (v : β) :
    entriesOff (assign m k v) k = entriesOff m k := by
  induction m with
  | nil => rfl
  | cons e m ih =>
    unfold assign
    split_ifs with h
    · simp [entriesOff, h]
    · simp only [entriesOff] at ih
      simp [entriesOff, h, ih]

theorem entriesOf_absent {β : Type} (m : List (Int × β)) (k : Int) (h : hasKey m k = false) :
    entriesOf m k = [] := by
  induction m with
  | nil => rfl
  | cons e m ih =>
    rw [hasKey_cons] at h
    simp only [Bool.or_eq_false_iff] at h
    simp only [entriesOf] at ih
    simp [entriesOf, h.1, ih h.2]

theorem entriesOff_absent {β : Type} (m : List (Int × β)) (k : Int) (h : hasKey m k = false) :
    entriesOff m k = m := by
  induction m with
  | nil => rfl
  | cons e m ih =>
    rw [hasKey_cons] at h
    simp only [Bool.or_eq_false_iff] at h
    simp only [entriesOff] at ih
    have h1 : e.1 ≠ k := by simpa using h.1
    simp [entriesOff, h1, ih h.2]

theorem entriesOf_assign {β : Type} (m : List (Int × β)) (k : Int) (v : β)
    (hk : hasKey m k = true) (hn : (m.map Prod.fst).Nodup) :
    entriesOf (assign m k v) k = [(k, v)] := by
  induction m with
  | nil => simp [hasKey] at hk
  | cons e m ih =>
    simp only [List.map_cons, List.nodup_cons] at hn
    unfold assign
    split_ifs with h
    · have hm : hasKey m k = false := by
        cases hmk : hasKey m k with
        | false => rfl
        | true => exact absurd ((hasKey_iff m k).1 hmk) (h ▸ hn.1)
      have := entriesOf_absent m k hm
      simp only [entriesOf] at this
      simp [entriesOf, h, this]
    · rw [hasKey_cons] at hk
      have h1 : (e.1 == k) = false := by simpa using h
      rw [h1, Bool.false_or] at hk
      have := ih hk hn.2
      simp only [entriesOf] at this
      simp [entriesOf, h1, this]

theorem entriesOf_emplace {β : Type} (m : List (Int × β)) (k : Int) (v : β)
    (hk : hasKey m k = false) : entriesOf (emplace m k v) k = [(k, v)] := by
  have := entriesOf_absent m k hk
  simp only [entriesOf] at this
  simp [entriesOf, emplace, List.filter_append, this]

theorem entriesOff_emplace {β : Type} (m : List (Int × β)) (k : Int) (v : β) :
    entriesOff (emplace m k v) k = entriesOff m k := by
  simp [entriesOff, emplace, List.filter_append]

/-! ## The epoll watcher keeps the FD map and the interest list in step -/

theorem fresh_consistent (t : Bool) (a b : Int) : (State.fresh t a b).consistent := by
  constructor
  · intro fd; rfl
  · simp [State.fresh]

theorem error_ne_success : error_response ≠ success_response := by decide

theorem epoll_ctl_queue (s : State) (op : CtlOp) (wd : Int) (ev : Nat) (o : Option Nat) :
    (epoll_ctl s op wd ev o).2.queue = s.queue := by
  unfold epoll_ctl
  cases o <;> cases op <;> simp only <;> split_ifs <;> rfl

theorem epoll_ctl_failure (s : State) (op : CtlOp) (wd : Int) (ev : Nat) (o : Option Nat)
    (h : (epoll_ctl s op wd ev o).1 ≠ success_response) :
    (epoll_ctl s op wd ev o).2.interest = s.interest := by
  unfold epoll_ctl at h ⊢
  cases o <;> cases op <;> simp only at h ⊢ <;> split_ifs at h ⊢ <;>
    first | rfl | exact absurd rfl h

theorem epoll_ctl_add_success (s : State) (wd : Int) (ev : Nat) (o : Option Nat)
    (h : (epoll_ctl s .EPOLL_CTL_ADD wd ev o).1 = success_response) (j : Int) :
    hasKey (epoll_ctl s .EPOLL_CTL_ADD wd ev o).2.interest j =
      (hasKey s.interest j || wd == j) := by
  unfold epoll_ctl at h ⊢
  cases o with
  | some e => exact absurd h error_ne_success
  | none =>
    simp only at h ⊢
    split_ifs at h ⊢
    · exact absurd h error_ne_success
    · exact hasKey_emplace _ _ _ _

theorem epoll_ctl_mod_success (s : State) (wd : Int) (ev : Nat) (o : Option Nat)
    (h : (epoll_ctl s .EPOLL_CTL_MOD wd ev o).1 = success_response) (j : Int) :
    hasKey (epoll_ctl s .EPOLL_CTL_MOD wd ev o).2.interest j =
      (hasKey s.interest j || wd == j) := by
  unfold epoll_ctl at h ⊢
  cases o with
  | some e => exact absurd h error_ne_success
  | none =>
    simp only at h ⊢
    split_ifs at h ⊢ with hp
    · rw [hasKey_assign]
      by_cases hj : wd = j
      · subst hj; simp [hp]
      · simp [hj]
    · exact absurd h error_ne_success

theorem epoll_ctl_del_success (s : State) (wd : Int) (ev : Nat) (o : Option Nat)
    (h : (epoll_ctl s .EPOLL_CTL_DEL wd ev o).1 = success_response) :
    hasKey s.interest wd = true := by
  unfold epoll_ctl at h
  cases o with
  | some e => exact absurd h error_ne_success
  | none =>
    simp only at h
    split_ifs at h with hp
    · exact hp
    · exact absurd h error_ne_success

theorem modify_or_add_spec (s : State) (wd : Int) (ev : Nat) (o1 o2 : Option Nat) :
    (pollnotify_t.modify_or_add s wd ev o1 o2).2.queue = s.queue ∧
    ((pollnotify_t.modify_or_add s wd ev o1 o2).1 = true → ∀ j,
      hasKey (pollnotify_t.modify_or_add s wd ev o1 o2).2.interest j =
        (hasKey s.interest j || wd == j)) ∧
    ((pollnotify_t.modify_or_add s wd ev o1 o2).1 = false →
      (pollnotify_t.modify_or_add s wd ev o1 o2).2.interest = s.interest) := by
  unfold pollnotify_t.modify_or_add
  simp only
  split_ifs with h1 h2
  · exact ⟨epoll_ctl_queue _ _ _ _ _, fun _ j => epoll_ctl_mod_success s wd ev o1 h1 j,
      fun h => absurd h (by simp)⟩
  · have hf := epoll_ctl_failure s _ wd ev o1 h1
    refine ⟨by rw [epoll_ctl_queue, epoll_ctl_queue], ?_, ?_⟩
    · intro h j
      simp only [decide_eq_true_eq] at h
      rw [epoll_ctl_add_success _ wd ev o2 h j, hf]
    · intro h
      simp only [decide_eq_false_iff_not] at h
      rw [epoll_ctl_failure _ _ wd ev o2 h, hf]
  · exact ⟨epoll_ctl_queue _ _ _ _ _, fun h => absurd h (by simp),
      fun _ => epoll_ctl_failure s _ wd ev o1 h1⟩

theorem add_or_modify_spec (s : State) (wd : Int) (ev : Nat) (o1 o2 : Option Nat) :
    (pollnotify_t.add_or_modify s wd ev o1 o2).2.queue = s.queue ∧
    ((pollnotify_t.add_or_modify s wd ev o1 o2).1 = true → ∀ j,
      hasKey (pollnotify_t.add_or_modify s wd ev o1 o2).2.interest j =
        (hasKey s.interest j || wd == j)) ∧
    ((pollnotify_t.add_or_modify s wd ev o1 o2).1 = false →
      (pollnotify_t.add_or_modify s wd ev o1 o2).2.interest = s.interest) := by
  unfold pollnotify_t.add_or_modify
  simp only
  split_ifs with h1 h2
  · exact ⟨epoll_ctl_queue _ _ _ _ _, fun _ j => epoll_ctl_add_success s wd ev o1 h1 j,
      fun h => absurd h (by simp)⟩
  · have hf := epoll_ctl_failure s _ wd ev o1 h1
    refine ⟨by rw [epoll_ctl_queue, epoll_ctl_queue], ?_, ?_⟩
    · intro h j
      simp only [decide_eq_true_eq] at h
      rw [epoll_ctl_mod_success _ wd ev o2 h j, hf]
    · intro h
      simp only [decide_eq_false_iff_not] at h
      rw [epoll_ctl_failure _ _ wd ev o2 h, hf]
  · exact ⟨epoll_ctl_queue _ _ _ _ _, fun h => absurd h (by simp),
      fun _ => epoll_ctl_failure s _ wd ev o1 h1⟩

theorem watch_consistent (s : State) (wd : Int) (flags : EventFlags_t) (o1 o2 : Option Nat)
    (h : s.consistent) : (pollnotify_t.watch s wd flags o1 o2).2.consistent := by
  obtain ⟨hk, hn⟩ := h
  unfold pollnotify_t.watch
  simp only
  split_ifs with hq hc hc
  · obtain ⟨e1, e2, -⟩ := modify_or_add_spec s wd (to_native_fdflags flags) o1 o2
    refine ⟨fun j => ?_, ?_⟩
    · simp only [posix.success]
      rw [hasKey_assign, e1, e2 hc j, hk j]
      by_cases hj : wd = j
      · subst hj; rw [← hk wd, hq]; rfl
      · simp [hj]
    · simp only [posix.success]
      rw [keys_assign, e1]; exact hn
  · obtain ⟨e1, -, e3⟩ := modify_or_add_spec s wd (to_native_fdflags flags) o1 o2
    have hc : (pollnotify_t.modify_or_add s wd (to_native_fdflags flags) o1 o2).1 = false := by
      simpa using hc
    exact ⟨fun j => by rw [e1, e3 hc]; exact hk j, by rw [e1]; exact hn⟩
  · obtain ⟨e1, e2, -⟩ := add_or_modify_spec s wd (to_native_fdflags flags) o1 o2
    refine ⟨fun j => ?_, ?_⟩
    · simp only [posix.success]
      rw [hasKey_emplace, e1, e2 hc j, hk j]
    · simp only [posix.success]
      rw [e1]
      simp only [emplace, List.map_append, List.map_cons, List.map_nil]
      rw [List.nodup_append]
      refine ⟨hn, List.nodup_singleton _, ?_⟩
      intro a ha hb
      simp only [List.mem_singleton] at hb
      subst hb
      exact hq ((hasKey_iff _ _).2 ha)
  · obtain ⟨e1, -, e3⟩ := add_or_modify_spec s wd (to_native_fdflags flags) o1 o2
    have hc : (pollnotify_t.add_or_modify s wd (to_native_fdflags flags) o1 o2).1 = false := by
      simpa using hc
    exact ⟨fun j => by rw [e1, e3 hc]; exact hk j, by rw [e1]; exact hn⟩

theorem remove_consistent (s : State) (wd : Int) (o : Option Nat) (h : s.consistent) :
    ∃ t, pollnotify_t.remove s wd o = some (false, t) ∧ t.consistent := by
  obtain ⟨hk, hn⟩ := h
  unfold pollnotify_t.remove
  simp only
  split_ifs with hq hd
  · exact ⟨s, rfl, hk, hn⟩
  · have := epoll_ctl_del_success s wd 0 o hd
    rw [← hk wd] at this
    exact absurd this hq
  · refine ⟨_, rfl, fun j => ?_, ?_⟩
    · rw [epoll_ctl_queue, epoll_ctl_failure s _ wd 0 o hd]; exact hk j
    · rw [epoll_ctl_queue]; exact hn

theorem runCalls_consistent (calls : List Call) :
    ∀ s : State, s.consistent → ∃ t, runCalls s calls = some t ∧ t.consistent := by
  induction calls with
  | nil => exact fun s h => ⟨s, rfl, h⟩
  | cons c cs ih =>
    intro s h
    cases c with
    | watch wd flags o1 o2 =>
      obtain ⟨t, ht, hc⟩ := ih _ (watch_consistent s wd flags o1 o2 h)
      exact ⟨t, by simpa [runCalls, Call.run] using ht, hc⟩
    | remove wd o =>
      obtain ⟨u, hu, huc⟩ := remove_consistent s wd o h
      obtain ⟨t, ht, hc⟩ := ih u huc
      exact ⟨t, by simpa [runCalls, Call.run, hu] using ht, hc⟩

/-! ## Registration and removal of descriptors -/

/-- C1, at the input fd 5 with `Readable` on a fresh backend: `watch` registers 5 and
creates its entry, and the following `EventBackend::remove(5, Readable)` answers
`false` and leaves the backend as it was, with the entry for 5 in the FD map and 5 in
the interest list of the wait primitive. -/
theorem remove_after_watch_keeps_registration :
    hasKey (State.fresh true 4 6).queue 5 = false ∧
    (pollnotify_t.registration (State.fresh true 4 6) 5 EventFlags.Readable none none).1 = true ∧
    EventBackend.remove
        (pollnotify_t.watch (State.fresh true 4 6) 5 EventFlags.Readable none none).2
        5 EventFlags.Readable none =
      some (false, (pollnotify_t.watch (State.fresh true 4 6) 5 EventFlags.Readable none none).2) ∧
    hasKey (pollnotify_t.watch (State.fresh true 4 6) 5 EventFlags.Readable none none).2.queue 5
      = true ∧
    hasKey (pollnotify_t.watch (State.fresh true 4 6) 5 EventFlags.Readable none none).2.interest 5
      = true := by
  decide

/-- C5: in every state reached from a fresh backend by calls of the epoll watcher, if
the registration performed by `watch(wd, flags)` succeeds then the FD map afterwards
holds exactly one entry for `wd`, carrying `flags`, and the entries of all other
descriptors are the old ones; if the registration fails the FD map is unchanged. -/
theorem watch_effect_on_fd_map (tracking : Bool) (fsfd procfd : Int) (calls : List Call)
    (s : State) (hs : runCalls (State.fresh tracking fsfd procfd) calls = some s)
    (wd : Int) (flags : EventFlags_t) (o1 o2 : Option Nat) :
    ((pollnotify_t.registration s wd flags o1 o2).1 = true →
      entriesOf (pollnotify_t.watch s wd flags o1 o2).2.queue wd = [(wd, flags)] ∧
      entriesOff (pollnotify_t.watch s wd flags o1 o2).2.queue wd = entriesOff s.queue wd) ∧
    ((pollnotify_t.registration s wd flags o1 o2).1 = false →
      (pollnotify_t.watch s wd flags o1 o2).2.queue = s.queue) := by
  obtain ⟨t, ht, -, hn⟩ := runCalls_consistent calls _ (fresh_consistent tracking fsfd procfd)
  rw [hs] at ht
  obtain rfl : s = t := Option.some.inj ht
  unfold pollnotify_t.registration pollnotify_t.watch
  simp only
  split_ifs with hq hc hc
  · obtain ⟨e1, -, -⟩ := modify_or_add_spec s wd (to_native_fdflags flags) o1 o2
    simp only [posix.success, e1]
    exact ⟨fun _ => ⟨entriesOf_assign _ _ _ hq hn, entriesOff_assign _ _ _⟩,
      fun h => absurd (hc.symm.trans h) (by decide)⟩
  · obtain ⟨e1, -, -⟩ := modify_or_add_spec s wd (to_native_fdflags flags) o1 o2
    exact ⟨fun h => absurd h hc, fun _ => e1⟩
  · obtain ⟨e1, -, -⟩ := add_or_modify_spec s wd (to_native_fdflags flags) o1 o2
    simp only [posix.success, e1]
    have hq : hasKey s.queue wd = false := by simpa using hq
    exact ⟨fun _ => ⟨entriesOf_emplace _ _ _ hq, by
        rw [entriesOff_emplace]⟩,
      fun h => absurd (hc.symm.trans h) (by decide)⟩
  · obtain ⟨e1, -, -⟩ := add_or_modify_spec s wd (to_native_fdflags flags) o1 o2
    exact ⟨fun h => absurd h hc, fun _ => e1⟩

/-- C6: from a fresh backend (empty FD map, empty interest list), every sequence of
`watch` and `remove` calls of the epoll watcher, whatever faults the kernel injects,
runs to a state in which a descriptor has an entry in the FD map if and only if it is
in the interest list of the wait primitive. -/
theorem fd_map_matches_interest_list (tracking : Bool) (fsfd procfd : Int)
    (calls : List Call) :
    ∃ s, runCalls (State.fresh tracking fsfd procfd) calls = some s ∧
      ∀ fd, hasKey s.queue fd = true ↔ hasKey s.interest fd = true := by
  obtain ⟨t, ht, hk, -⟩ := runCalls_consistent calls _ (fresh_consistent tracking fsfd procfd)
  exact ⟨t, ht, fun fd => by rw [hk fd]⟩

/-- C5, at a re-add that the kernel accepts and at a first add that it refuses. -/
theorem watch_effect_on_fd_map_witness :
    runCalls (State.fresh true 4 6) [.watch 5 EventFlags.Readable none none] =
      some (pollnotify_t.watch (State.fresh true 4 6) 5 EventFlags.Readable none none).2 ∧
    (pollnotify_t.registration
      (pollnotify_t.watch (State.fresh true 4 6) 5 EventFlags.Readable none none).2
      5 { Readable := true, Writeable := true } none none).1 = true ∧
    (entriesOf (pollnotify_t.watch
        (pollnotify_t.watch (State.fresh true 4 6) 5 EventFlags.Readable none none).2
        5 { Readable := true, Writeable := true } none none).2.queue 5 =
      [(5, { Readable := true, Writeable := true })] ∧
     entriesOff (pollnotify_t.watch
        (pollnotify_t.watch (State.fresh true 4 6) 5 EventFlags.Readable none none).2
        5 { Readable := true, Writeable := true } none none).2.queue 5 =
      entriesOff
        (pollnotify_t.watch (State.fresh true 4 6) 5 EventFlags.Readable none none).2.queue 5) ∧
    (pollnotify_t.registration
      (pollnotify_t.watch (State.fresh true 4 6) 5 EventFlags.Readable none none).2
      7 EventFlags.Readable (some EBADF) none).1 = false ∧
    (pollnotify_t.watch
      (pollnotify_t.watch (State.fresh true 4 6) 5 EventFlags.Readable none none).2
      7 EventFlags.Readable (some EBADF) none).2.queue =
      (pollnotify_t.watch (State.fresh true 4 6) 5 EventFlags.Readable none none).2.queue :=
  ⟨by decide, by decide,
   (watch_effect_on_fd_map true 4 6 [.watch 5 EventFlags.Readable none none] _ (by decide)
      5 { Readable := true, Writeable := true } none none).1 (by decide),
   by decide,
   (watch_effect_on_fd_map true 4 6 [.watch 5 EventFlags.Readable none none] _ (by decide)
      7 EventFlags.Readable (some EBADF) none).2 (by decide)⟩

/-! ## Path watches -/

/-- C7, at the path `/tmp/x` with `WriteEvent` on a fresh backend whose inotify
instance is fd 4 and whose kernel answers watch descriptor 1: the call succeeds and
returns 1, and the FD map holds the single entry `(1, Readable)`, keyed by the watch
descriptor; it has no entry for fd 4. -/
theorem watch_path_registers_watch_descriptor :
    (EventBackend.watch_path (State.fresh true 4 6) "/tmp/x" EventFlags.WriteEvent
      (.ok 1) none none none).1 = 1 ∧
    (EventBackend.watch_path (State.fresh true 4 6) "/tmp/x" EventFlags.WriteEvent
      (.ok 1) none none none).2.fsnotify_fd = 4 ∧
    (EventBackend.watch_path (State.fresh true 4 6) "/tmp/x" EventFlags.WriteEvent
      (.ok 1) none none none).2.fsnotify_fds = [1] ∧
    (EventBackend.watch_path (State.fresh true 4 6) "/tmp/x" EventFlags.WriteEvent
      (.ok 1) none none none).2.queue = [(1, EventFlags.Readable)] ∧
    hasKey (EventBackend.watch_path (State.fresh true 4 6) "/tmp/x" EventFlags.WriteEvent
      (.ok 1) none none none).2.queue 4 = false := by
  decide

/-- C8, at the same input: after `watch(path, WriteEvent)` returned watch descriptor 1,
`EventBackend::remove(1, WriteEvent)` answers `false` and changes nothing: 1 is still
in the path-watch set and still a live watch of the inotify instance (no
`inotify_rm_watch` was issued). -/
theorem remove_keeps_path_watch :
    (EventBackend.watch_path (State.fresh true 4 6) "/tmp/x" EventFlags.WriteEvent
      (.ok 1) none none none).1 = 1 ∧
    EventBackend.remove
      (EventBackend.watch_path (State.fresh true 4 6) "/tmp/x" EventFlags.WriteEvent
        (.ok 1) none none none).2 1 EventFlags.WriteEvent none =
      some (false, (EventBackend.watch_path (State.fresh true 4 6) "/tmp/x"
        EventFlags.WriteEvent (.ok 1) none none none).2) ∧
    (1 : Int) ∈ (EventBackend.watch_path (State.fresh true 4 6) "/tmp/x"
      EventFlags.WriteEvent (.ok 1) none none none).2.fsnotify_fds ∧
    (1 : Int) ∈ (EventBackend.watch_path (State.fresh true 4 6) "/tmp/x"
      EventFlags.WriteEvent (.ok 1) none none none).2.watches := by
  decide

/-- C9, at fd 5 with `Readable` on a fresh backend: when `epoll_ctl` fails with `EBADF`
the registration is refused and nothing is recorded, yet `EventBackend::watch` returns
5, the very value it returns when the kernel accepts the registration. -/
theorem watch_returns_descriptor_on_refusal :
    (pollnotify_t.registration (State.fresh true 4 6) 5 EventFlags.Readable
      (some EBADF) (some EBADF)).1 = false ∧
    (EventBackend.watch (State.fresh true 4 6) 5 EventFlags.Readable
      (some EBADF) (some EBADF)).2.queue = [] ∧
    (EventBackend.watch (State.fresh true 4 6) 5 EventFlags.Readable
      (some EBADF) (some EBADF)).1 = 5 ∧
    (pollnotify_t.registration (State.fresh true 4 6) 5 EventFlags.Readable none none).1 = true ∧
    (EventBackend.watch (State.fresh true 4 6) 5 EventFlags.Readable none none).1 = 5 := by
  decide

/-- C10, at the path `/tmp/x` on a fresh backend where the kernel hands out watch
descriptor 1 and then refuses the `epoll_ctl` registration with `EBADF`: the call
returns 1 rather than the invalid descriptor and the path-watch set keeps 1, although
the FD map stays empty. -/
theorem watch_path_keeps_watch_on_refusal :
    (pollnotify_t.registration
      (fsnotify_t.watch (State.fresh true 4 6) "/tmp/x" EventFlags.WriteEvent (.ok 1)).2
      1 EventFlags.Readable (some EBADF) (some EBADF)).1 = false ∧
    (EventBackend.watch_path (State.fresh true 4 6) "/tmp/x" EventFlags.WriteEvent
      (.ok 1) (some EBADF) (some EBADF) none).1 = 1 ∧
    invalid_descriptor = -1 ∧
    (State.fresh true 4 6).fsnotify_fds = [] ∧
    (EventBackend.watch_path (State.fresh true 4 6) "/tmp/x" EventFlags.WriteEvent
      (.ok 1) (some EBADF) (some EBADF) none).2.fsnotify_fds = [1] ∧
    (EventBackend.watch_path (State.fresh true 4 6) "/tmp/x" EventFlags.WriteEvent
      (.ok 1) (some EBADF) (some EBADF) none).2.queue = [] := by
  decide

/-! ## Signals and the dispatch queue -/

theorem connectAll_eq_map {α : Type} (subs : List (Subscriber α)) :
    connectAll subs = subs.map Subscriber.entry := by
  have key : ∀ (l : List (Subscriber α)) (acc : signal α),
      l.foldl (fun sig sub =>
        match sub with
        | .bound obj slot => Object.connect sig (some obj) slot
        | .function slot => Object.connect_function sig slot) acc =
      acc ++ l.map Subscriber.entry := by
    intro l
    induction l with
    | nil => intro acc; simp
    | cons x xs ih =>
      intro acc
      rw [List.foldl_cons, ih]
      cases x <;>
        simp [Object.connect, Object.connect_function, Subscriber.entry]
  simpa [connectAll] using key subs []

theorem enqueue_loop_eq {α : Type} (moved : α → α) (sig : signal α) :
    ∀ (args : α) (queue : List vfunc),
      Object.enqueue.loop moved sig args queue =
        (queue ++ Object.enqueue.closures moved sig args, moved^[sig.length] args) := by
  induction sig with
  | nil => intro args queue; simp [Object.enqueue.loop, Object.enqueue.closures]
  | cons sp rest ih =>
    intro args queue
    simp [Object.enqueue.loop, Object.enqueue.closures, ih, Function.iterate_succ_apply]

theorem enqueue_queue {α : Type} (moved : α → α) (sig : signal α) (args : α)
    (queue : List vfunc) :
    (Object.enqueue moved sig args queue).2.1 =
      queue ++ Object.enqueue.closures moved sig args := by
  unfold Object.enqueue
  split_ifs with h
  · have : sig = [] := by simpa using h
    subst this
    simp [Object.enqueue.closures]
  · rw [enqueue_loop_eq]

theorem closures_getElem? {α : Type} (moved : α → α) (sig : signal α) :
    ∀ (args : α) (i : Nat),
      (Object.enqueue.closures moved sig args)[i]? =
        sig[i]?.map (fun sp => std_bind sp.2 sp.1 (moved^[i] args)) := by
  induction sig with
  | nil => intro args i; simp [Object.enqueue.closures]
  | cons sp rest ih =>
    intro args i
    cases i with
    | zero => simp [Object.enqueue.closures]
    | succ n => simp [Object.enqueue.closures, ih, Function.iterate_succ_apply]

/-- C3, at a signal over `std::string` with the two free functions `s1`, `s2` connected
in that order, the argument `"abc"` and an empty queue, where a moved-from string is
empty: `enqueue` leaves two closures in connection order, but run on an empty memory
the second writes `s2:` with the empty string, whereas the closure of `s2` bound to
`"abc"` writes `s2:abc`. -/
theorem enqueue_binds_moved_from_arguments :
    (Object.enqueue (fun _ => "")
        (Object.connect_function (Object.connect_function [] (echo "s1:")) (echo "s2:"))
        "abc" []).1 = true ∧
    (Object.enqueue (fun _ => "")
        (Object.connect_function (Object.connect_function [] (echo "s1:")) (echo "s2:"))
        "abc" []).2.1.map (fun c => (c World.empty).map World.output) =
      [some ["s1:abc"], some ["s2:"]] ∧
    ([std_bind (Object.unguarded (echo "s1:")) none "abc",
      std_bind (Object.unguarded (echo "s2:")) none "abc"] : List vfunc).map
        (fun c => (c World.empty).map World.output) =
      [some ["s1:abc"], some ["s2:abc"]] := by
  decide

/-- C4, at the objects 1 (slot `A`) and 2 (slot `B`) subscribed in that order, one
`enqueue` of `"abc"`, and object 1 destroyed before the drain.  While both are alive
the closures write `A:abc` and `B:abc`.  After `~ProtoObject` of object 1 its closure
reads `p->self` of an object that is no longer alive, which is undefined.  Once a new
object lives at address 1, the guard `p == p->self` passes and the closure of the
destroyed subscriber invokes slot `A`.  The closure of object 2 runs slot `B` in every
case. -/
theorem stale_closure_invokes_slot :
    World.queued.map (fun c => (c World.twoObjects).map World.output) =
      [some ["A:abc"], some ["B:abc"]] ∧
    ((ProtoObject.destroy World.twoObjects 1).storage 1).alive = false ∧
    World.queued.map (fun c => (c (ProtoObject.destroy World.twoObjects 1)).map World.output) =
      [none, some ["B:abc"]] ∧
    World.queued.map (fun c =>
        (c (ProtoObject.construct (ProtoObject.destroy World.twoObjects 1) 1)).map
          World.output) =
      [some ["A:abc"], some ["B:abc"]] := by
  decide

/-! ## Polling -/

/-- C11, for every state, prior results and timeout: when `epoll_wait` returns zero
ready entries (the timeout elapsed), the count is 0, which is not `error_response`,
and `getevents` returns `true` with empty results. -/
theorem getevents_true_on_timeout (s : State) (results : List (Int × EventData_t))
    (timeout : Int) :
    pollnotify_t.wait timeout (some []) = 0 ∧
    EventBackend.getevents s results timeout (some []) = (true, []) := by
  constructor <;> rfl

/-- C12: for every prior content of `results`, when `epoll_wait` reports an error
(returns `error_response`), `getevents` returns `false` and `results` is empty. -/
theorem getevents_false_on_error (s : State) (results : List (Int × EventData_t))
    (timeout : Int) :
    pollnotify_t.wait timeout none = error_response ∧
    EventBackend.getevents s results timeout none = (false, []) := by
  constructor <;> rfl

theorem wait_ne_error (timeout : Int) (ready : List Ready) :
    pollnotify_t.wait timeout (some ready) ≠ error_response := by
  simp only [pollnotify_t.wait, error_response]
  omega

theorem getevents_ready (s : State) (results : List (Int × EventData_t)) (timeout : Int)
    (ready : List Ready) :
    EventBackend.getevents s results timeout (some ready) =
      (true, (ready.map (EventBackend.getevents.entry s)).flatten) := by
  unfold EventBackend.getevents
  simp only [wait_ne_error, if_false]
  simp [pollnotify_t.wait]

/-- C18: for every prior content of `results` and every wakeup whose ready entries are
neither the process-events fd nor members of the path-watch set, `getevents` returns
`true` and `results` holds exactly one entry `(fd, from_native_fdflags(events))` per
ready entry, in the reported order, and nothing from earlier polls. -/
theorem getevents_user_descriptors (s : State) (results : List (Int × EventData_t))
    (timeout : Int) (ready : List Ready)
    (h : ∀ e ∈ ready, e.fd ≠ s.procnotify_fd ∧ e.fd ∉ s.fsnotify_fds) :
    EventBackend.getevents s results timeout (some ready) =
      (true, ready.map (fun e => (e.fd, from_native_fdflags e.events))) := by
  rw [getevents_ready]
  congr 1
  induction ready with
  | nil => rfl
  | cons e rest ih =>
    have he := h e (List.mem_cons_self _ _)
    have hrest := ih (fun x hx => h x (List.mem_cons_of_mem _ hx))
    simp only [List.map_cons, List.flatten_cons, hrest]
    simp [EventBackend.getevents.entry, he.1, he.2]

/-- C18, at a wakeup with two user descriptors and stale results from an earlier poll. -/
theorem getevents_user_descriptors_witness :
    (∀ e ∈ [({ fd := 7, events := EPOLLIN } : Ready), { fd := 9, events := EPOLLOUT }],
      e.fd ≠ (State.fresh true 4 6).procnotify_fd ∧
      e.fd ∉ (State.fresh true 4 6).fsnotify_fds) ∧
    EventBackend.getevents (State.fresh true 4 6) [(3, {})] 100
        (some [{ fd := 7, events := EPOLLIN }, { fd := 9, events := EPOLLOUT }]) =
      (true, [(7, { flags := { Readable := true } }), (9, { flags := { Writeable := true } })]) :=
  ⟨by decide,
   getevents_user_descriptors (State.fresh true 4 6) [(3, {})] 100
     [{ fd := 7, events := EPOLLIN }, { fd := 9, events := EPOLLOUT }] (by decide)⟩

/-! ## Process watches and flag routing -/

theorem entriesOf_append {β : Type} (m n : List (Int × β)) (k : Int) :
    entriesOf (m ++ n) k = entriesOf m k ++ entriesOf n k := by
  simp [entriesOf, List.filter_append]

theorem entriesOf_eraseKey {β : Type} (m : List (Int × β)) (k : Int) :
    entriesOf (eraseKey m k) k = [] := by
  simp [entriesOf, eraseKey, List.filter_filter]

theorem entriesOff_eraseKey {β : Type} (m : List (Int × β)) (k : Int) :
    entriesOff (eraseKey m k) k = entriesOff m k := by
  simp [entriesOff, eraseKey, List.filter_filter]

theorem watch_all_events (pid : Int) (regs : List EventFlags_t) :
    ∀ s : State, (regs.foldl (fun t flags => (procnotify_t.watch t pid flags).2) s).events =
      s.events ++ regs.map (fun flags => (pid, flags)) := by
  induction regs with
  | nil => intro s; simp
  | cons f rest ih =>
    intro s
    rw [List.foldl_cons, ih]
    simp [procnotify_t.watch, emplace]

/-- C13: `procnotify_t::watch(pid, flags)` returns `pid` and appends the one entry
`(pid, flags)` to the process-watch map, keeping every existing entry; after `n`
registrations for the same pid the map holds `n` more entries for it, one per
registration.  `procnotify_t::remove(pid)` leaves no entry for `pid`, returns `true`
exactly when there was one, and keeps the entries of all other pids. -/
theorem process_watches_are_multi_valued (s : State) (pid : Int) (flags : EventFlags_t)
    (regs : List EventFlags_t) :
    (procnotify_t.watch s pid flags).1 = pid ∧
    (procnotify_t.watch s pid flags).2.events = s.events ++ [(pid, flags)] ∧
    entriesOf (regs.foldl (fun t f => (procnotify_t.watch t pid f).2) s).events pid =
      entriesOf s.events pid ++ regs.map (fun f => (pid, f)) ∧
    (entriesOf (regs.foldl (fun t f => (procnotify_t.watch t pid f).2) s).events pid).length =
      (entriesOf s.events pid).length + regs.length ∧
    entriesOff (regs.foldl (fun t f => (procnotify_t.watch t pid f).2) s).events pid =
      entriesOff s.events pid ∧
    entriesOf (procnotify_t.remove s pid).2.events pid = [] ∧
    ((procnotify_t.remove s pid).1 = true ↔ entriesOf s.events pid ≠ []) ∧
    entriesOff (procnotify_t.remove s pid).2.events pid = entriesOff s.events pid := by
  have hreg : entriesOf (regs.map (fun f => (pid, f))) pid = regs.map (fun f => (pid, f)) := by
    simp [entriesOf, List.filter_eq_self]
  have hoff : entriesOff (s.events ++ regs.map (fun f => (pid, f))) pid =
      entriesOff s.events pid := by
    simp [entriesOff, List.filter_append, List.filter_eq_nil_iff]
  refine ⟨rfl, rfl, ?_, ?_, ?_, ?_, ?_, ?_⟩
  · rw [watch_all_events, entriesOf_append, hreg]
  · rw [watch_all_events, entriesOf_append, hreg]
    simp
  · rw [watch_all_events, hoff]
  · unfold procnotify_t.remove
    split_ifs with h
    · exact entriesOf_eraseKey _ _
    · exact entriesOf_absent _ _ (by simpa using h)
  · unfold procnotify_t.remove
    split_ifs with h
    · simp only [true_iff]
      intro hnil
      have : ∃ e ∈ s.events, e.1 = pid := by simpa [hasKey] using h
      obtain ⟨e, he, hk⟩ := this
      have : e ∈ entriesOf s.events pid := by simp [entriesOf, he, hk]
      rw [hnil] at this
      exact absurd this (List.not_mem_nil _)
    · have := entriesOf_absent _ _ (by simpa using h : hasKey s.events pid = false)
      simp [this]
  · unfold procnotify_t.remove
    split_ifs with h
    · exact entriesOff_eraseKey _ _
    · rfl

theorem testBit_bit (b : Bool) (i j : Nat) : (bit b i).testBit j = (b && decide (i = j)) := by
  cases b <;> simp [bit, Nat.testBit_two_pow]

theorem value_lt_of_no_process_flag (f : EventFlags_t) (h : f.hasProcessFlag = false) :
    f.value < 2 ^ 9 := by
  apply Nat.lt_pow_two_of_testBit
  intro j hj
  simp only [EventFlags_t.hasProcessFlag, Bool.or_eq_false_iff] at h
  obtain ⟨⟨⟨⟨⟨h1, h2⟩, h3⟩, h4⟩, h5⟩, h6⟩ := h
  simp only [EventFlags_t.value, Nat.testBit_or, testBit_bit, h1, h2, h3, h4, h5, h6,
    Bool.false_and, Bool.or_false]
  have e0 : decide (0 = j) = false := decide_eq_false (by omega)
  have e1 : decide (1 = j) = false := decide_eq_false (by omega)
  have e2 : decide (2 = j) = false := decide_eq_false (by omega)
  have e3 : decide (3 = j) = false := decide_eq_false (by omega)
  have e4 : decide (4 = j) = false := decide_eq_false (by omega)
  have e5 : decide (5 = j) = false := decide_eq_false (by omega)
  have e6 : decide (6 = j) = false := decide_eq_false (by omega)
  have e7 : decide (7 = j) = false := decide_eq_false (by omega)
  have e8 : decide (8 = j) = false := decide_eq_false (by omega)
  simp only [e0, e1, e2, e3, e4, e5, e6, e7, e8, Bool.and_false, Bool.or_false]

theorem value_ge_of_process_flag (f : EventFlags_t) (h : f.hasProcessFlag = true) :
    2 ^ 9 ≤ f.value := by
  simp only [EventFlags_t.hasProcessFlag, Bool.or_eq_true] at h
  have key : ∀ i, 9 ≤ i → f.value.testBit i = true → 2 ^ 9 ≤ f.value := fun i hi ht =>
    le_trans (Nat.pow_le_pow_right (by decide) hi) (Nat.testBit_implies_ge ht)
  rcases h with ((((h | h) | h) | h) | h) | h
  · exact key 9 (by decide) (by simp [EventFlags_t.value, Nat.testBit_or, testBit_bit, h])
  · exact key 10 (by decide) (by simp [EventFlags_t.value, Nat.testBit_or, testBit_bit, h])
  · exact key 11 (by decide) (by simp [EventFlags_t.value, Nat.testBit_or, testBit_bit, h])
  · exact key 12 (by decide) (by simp [EventFlags_t.value, Nat.testBit_or, testBit_bit, h])
  · exact key 13 (by decide) (by simp [EventFlags_t.value, Nat.testBit_or, testBit_bit, h])
  · exact key 14 (by decide) (by simp [EventFlags_t.value, Nat.testBit_or, testBit_bit, h])

theorem ExecEvent_value : EventFlags.ExecEvent.value = 2 ^ 9 := by decide

theorem value_ge_iff (f : EventFlags_t) :
    f.value ≥ EventFlags.ExecEvent.value ↔ f.hasProcessFlag = true := by
  rw [ExecEvent_value]
  constructor
  · intro h
    cases hp : f.hasProcessFlag with
    | true => rfl
    | false => exact absurd (value_lt_of_no_process_flag f hp) (by omega)
  · exact value_ge_of_process_flag f

theorem epoll_ctl_events (s : State) (op : CtlOp) (wd : Int) (ev : Nat) (o : Option Nat) :
    (epoll_ctl s op wd ev o).2.events = s.events := by
  unfold epoll_ctl
  cases o <;> cases op <;> simp only <;> split_ifs <;> rfl

theorem pollnotify_watch_events (s : State) (wd : Int) (flags : EventFlags_t)
    (o1 o2 : Option Nat) : (pollnotify_t.watch s wd flags o1 o2).2.events = s.events := by
  unfold pollnotify_t.watch pollnotify_t.modify_or_add pollnotify_t.add_or_modify
  simp only
  split_ifs <;> simp only [posix.success, epoll_ctl_events]

theorem pollnotify_remove_events (s : State) (wd : Int) (o : Option Nat) :
    ∀ r, pollnotify_t.remove s wd o = some r → r.2.events = s.events := by
  intro r
  unfold pollnotify_t.remove
  simp only
  split_ifs
  · rintro ⟨rfl⟩; rfl
  · intro h; exact absurd h (by simp)
  · rintro ⟨rfl⟩; exact epoll_ctl_events _ _ _ _ _

/-- C14, at a backend built with process tracking whose process-events socket is the
invalid descriptor: `EventBackend::watch(1234, ExitEvent)` returns 1234 and records
the entry `(1234, ExitEvent)`; it neither returns the invalid descriptor nor leaves the
process-watch map alone. -/
theorem watch_records_despite_invalid_socket :
    (State.fresh true 4 invalid_descriptor).procnotify_fd = invalid_descriptor ∧
    ({ ExitEvent := true } : EventFlags_t).procGroup ∧
    (EventBackend.watch (State.fresh true 4 invalid_descriptor) 1234 { ExitEvent := true }
      none none).1 = 1234 ∧
    (EventBackend.watch (State.fresh true 4 invalid_descriptor) 1234 { ExitEvent := true }
      none none).2.events = [(1234, { ExitEvent := true })] ∧
    ¬((EventBackend.watch (State.fresh true 4 invalid_descriptor) 1234 { ExitEvent := true }
        none none).1 = invalid_descriptor ∧
      (EventBackend.watch (State.fresh true 4 invalid_descriptor) 1234 { ExitEvent := true }
        none none).2.events = (State.fresh true 4 invalid_descriptor).events) := by
  decide

/-- C14 as amended: for every pid and every flag set holding a process-group flag, in a
build without `ENABLE_PROCESS_EVENT_TRACKING` `EventBackend::watch` returns the invalid
descriptor and leaves the whole state, the process-watch map included, unchanged; in a
build with it the call is `procnotify_t::watch`, which returns the pid and records the
entry whatever `procnotify.fd` is. -/
theorem watch_process_subsystem_switch (s : State) (target : Int) (flags : EventFlags_t)
    (o1 o2 : Option Nat) (hf : flags.hasProcessFlag = true) :
    (s.ENABLE_PROCESS_EVENT_TRACKING = false →
      EventBackend.watch s target flags o1 o2 = (invalid_descriptor, s)) ∧
    (s.ENABLE_PROCESS_EVENT_TRACKING = true →
      EventBackend.watch s target flags o1 o2 =
        (target, { s with events := s.events ++ [(target, flags)] })) := by
  have hv := (value_ge_iff flags).2 hf
  unfold EventBackend.watch
  rw [if_pos hv]
  constructor
  · intro h; simp [h]
  · intro h; simp [h, procnotify_t.watch, emplace]

/-- C14 as amended, at pid 1234 with `ExitEvent` in both builds. -/
theorem watch_process_subsystem_switch_witness :
    ({ ExitEvent := true } : EventFlags_t).hasProcessFlag = true ∧
    (State.fresh false 4 invalid_descriptor).ENABLE_PROCESS_EVENT_TRACKING = false ∧
    EventBackend.watch (State.fresh false 4 invalid_descriptor) 1234 { ExitEvent := true }
      none none = (invalid_descriptor, State.fresh false 4 invalid_descriptor) ∧
    (State.fresh true 4 invalid_descriptor).ENABLE_PROCESS_EVENT_TRACKING = true ∧
    EventBackend.watch (State.fresh true 4 invalid_descriptor) 1234 { ExitEvent := true }
      none none =
      (1234, { State.fresh true 4 invalid_descriptor with
        events := (State.fresh true 4 invalid_descriptor).events ++
          [(1234, { ExitEvent := true })] }) :=
  ⟨rfl, rfl,
   (watch_process_subsystem_switch (State.fresh false 4 invalid_descriptor) 1234
      { ExitEvent := true } none none rfl).1 rfl,
   rfl,
   (watch_process_subsystem_switch (State.fresh true 4 invalid_descriptor) 1234
      { ExitEvent := true } none none rfl).2 rfl⟩

/-- C17: for every flag set the test `flags >= ExecEvent` holds exactly when the set
has a process-group flag.  With such a flag, mixed with fd or path flags or not,
`EventBackend::watch` and `EventBackend::remove` are the process-watch operations (or,
without process tracking, return at once) and leave the FD map and the interest list
alone; without such a flag they are the epoll watcher's operations and leave the
process-watch map alone. -/
theorem flag_group_routing (s : State) (target : Int) (flags : EventFlags_t)
    (o1 o2 o : Option Nat) :
    (flags.value ≥ EventFlags.ExecEvent.value ↔ flags.hasProcessFlag = true) ∧
    (flags.hasProcessFlag = true →
      EventBackend.watch s target flags o1 o2 =
        (if s.ENABLE_PROCESS_EVENT_TRACKING then procnotify_t.watch s target flags
         else (invalid_descriptor, s)) ∧
      EventBackend.remove s target flags o =
        some (if s.ENABLE_PROCESS_EVENT_TRACKING then procnotify_t.remove s target
         else (true, s)) ∧
      (EventBackend.watch s target flags o1 o2).2.queue = s.queue ∧
      (EventBackend.watch s target flags o1 o2).2.interest = s.interest ∧
      ∀ r, EventBackend.remove s target flags o = some r →
        r.2.queue = s.queue ∧ r.2.interest = s.interest) ∧
    (flags.hasProcessFlag = false →
      EventBackend.watch s target flags o1 o2 = pollnotify_t.watch s target flags o1 o2 ∧
      EventBackend.remove s target flags o =
        (pollnotify_t.remove s target o).map (fun r => (r.1 && r.2.errno == 0, r.2)) ∧
      (EventBackend.watch s target flags o1 o2).2.events = s.events ∧
      ∀ r, EventBackend.remove s target flags o = some r → r.2.events = s.events) := by
  refine ⟨value_ge_iff flags, ?_, ?_⟩
  · intro hf
    have hv := (value_ge_iff flags).2 hf
    have hw : EventBackend.watch s target flags o1 o2 =
        (if s.ENABLE_PROCESS_EVENT_TRACKING then procnotify_t.watch s target flags
         else (invalid_descriptor, s)) := by
      unfold EventBackend.watch; rw [if_pos hv]
    have hr : EventBackend.remove s target flags o =
        some (if s.ENABLE_PROCESS_EVENT_TRACKING then procnotify_t.remove s target
         else (true, s)) := by
      unfold EventBackend.remove; rw [if_pos hv]
      cases s.ENABLE_PROCESS_EVENT_TRACKING <;> simp [invalid_descriptor]
    refine ⟨hw, hr, ?_, ?_, ?_⟩
    · rw [hw]; cases s.ENABLE_PROCESS_EVENT_TRACKING <;> simp [procnotify_t.watch]
    · rw [hw]; cases s.ENABLE_PROCESS_EVENT_TRACKING <;> simp [procnotify_t.watch]
    · intro r h
      rw [hr] at h
      obtain rfl := Option.some.inj h
      cases s.ENABLE_PROCESS_EVENT_TRACKING
      · exact ⟨rfl, rfl⟩
      · simp only [if_true]
        unfold procnotify_t.remove
        split_ifs <;> exact ⟨rfl, rfl⟩
  · intro hf
    have hv : ¬ flags.value ≥ EventFlags.ExecEvent.value := by
      rw [value_ge_iff, hf]; simp
    have hw : EventBackend.watch s target flags o1 o2 =
        pollnotify_t.watch s target flags o1 o2 := by
      unfold EventBackend.watch; rw [if_neg hv]
    have hr : EventBackend.remove s target flags o =
        (pollnotify_t.remove s target o).map (fun r => (r.1 && r.2.errno == 0, r.2)) := by
      unfold EventBackend.remove; rw [if_neg hv]
      cases pollnotify_t.remove s target o <;> rfl
    refine ⟨hw, hr, ?_, ?_⟩
    · rw [hw]; exact pollnotify_watch_events _ _ _ _ _
    · intro r h
      rw [hr] at h
      cases hp : pollnotify_t.remove s target o with
      | none => rw [hp] at h; exact absurd h (by simp)
      | some p =>
        rw [hp] at h
        obtain rfl := Option.some.inj h
        exact pollnotify_remove_events s target o p hp

/-- C17, at a mixed flag set (`Readable` with `ExitEvent`) and at a pure fd set. -/
theorem flag_group_routing_witness :
    ({ Readable := true, ExitEvent := true } : EventFlags_t).hasProcessFlag = true ∧
    EventBackend.watch (State.fresh true 4 6) 1234 { Readable := true, ExitEvent := true }
      none none =
      (1234, { State.fresh true 4 6 with
        events := [(1234, { Readable := true, ExitEvent := true })] }) ∧
    (EventFlags.Readable).hasProcessFlag = false ∧
    EventBackend.watch (State.fresh true 4 6) 5 EventFlags.Readable none none =
      pollnotify_t.watch (State.fresh true 4 6) 5 EventFlags.Readable none none :=
  ⟨rfl,
   ((flag_group_routing (State.fresh true 4 6) 1234 { Readable := true, ExitEvent := true }
      none none none).2.1 rfl).1,
   rfl,
   ((flag_group_routing (State.fresh true 4 6) 5 EventFlags.Readable
      none none none).2.2 rfl).1⟩

/-! ## The interruption-safe wrapper -/

theorem stateBefore_succ {α σ ρ : Type} (func : α → Sys σ → ρ × Sys σ) (args : α)
    (st : Sys σ) (k : Nat) :
    posix.stateBefore func args st (k + 1) = posix.stateBefore func args (func args st).2 k := by
  simp [posix.stateBefore, Function.iterate_succ_apply]

theorem ignore_interruption_after {α σ ρ : Type} (error_t : ρ → Int)
    (func : α → Sys σ → ρ × Sys σ) (args : α) :
    ∀ (k : Nat) (st : Sys σ) (fuel : Nat),
      (∀ i, i < k → posix.interrupted error_t (func args (posix.stateBefore func args st i))) →
      ¬ posix.interrupted error_t (func args (posix.stateBefore func args st k)) →
      k < fuel →
      posix.ignore_interruption error_t func args fuel st =
        some ((func args (posix.stateBefore func args st k)).1,
              (func args (posix.stateBefore func args st k)).2, k + 1) := by
  intro k
  induction k with
  | zero =>
    intro st fuel _ hlast hfuel
    obtain ⟨f, rfl⟩ : ∃ f, fuel = f + 1 := ⟨fuel - 1, by omega⟩
    have hlast0 : ¬ posix.interrupted error_t (func args st) := hlast
    simp [posix.ignore_interruption, hlast0, posix.stateBefore]
  | succ k ih =>
    intro st fuel hfirst hlast hfuel
    obtain ⟨f, rfl⟩ : ∃ f, fuel = f + 1 := ⟨fuel - 1, by omega⟩
    have h0 : posix.interrupted error_t (func args st) := hfirst 0 (by omega)
    have hrec := ih (func args st).2 f
      (fun i hi => by
        have := hfirst (i + 1) (by omega)
        rwa [stateBefore_succ] at this)
      (by rwa [stateBefore_succ] at hlast)
      (by omega)
    simp only [posix.ignore_interruption, h0, if_true, hrec, Option.map_some', stateBefore_succ]

theorem ignore_interruption_result {α σ ρ : Type} (error_t : ρ → Int)
    (func : α → Sys σ → ρ × Sys σ) (args : α) :
    ∀ (fuel : Nat) (st : Sys σ) (out : ρ × Sys σ × Nat),
      posix.ignore_interruption error_t func args fuel st = some out →
      ¬ posix.interrupted error_t (out.1, out.2.1) := by
  intro fuel
  induction fuel with
  | zero => intro st out h; simp [posix.ignore_interruption] at h
  | succ f ih =>
    intro st out h
    simp only [posix.ignore_interruption] at h
    split_ifs at h with hi
    · cases hr : posix.ignore_interruption error_t func args f (func args st).2 with
      | none => rw [hr] at h; simp at h
      | some r =>
        rw [hr] at h
        simp only [Option.map_some', Option.some.injEq] at h
        subst h
        exact ih _ r hr
    · simp only [Option.some.injEq] at h
      subst h
      exact hi

/-- C15: if the first `k` invocations of the wrapped call fail with `error_response`
and `errno == interrupted` and the next one does not, then `ignore_interruption`, given
room for more than `k` iterations, returns: it has invoked the function `k + 1` times
with the same arguments and hands back the result of the last invocation with the
state that invocation left.  Whatever it returns is never a failure whose `errno` is
`interrupted`. -/
theorem ignore_interruption_retries {α σ ρ : Type} (error_t : ρ → Int)
    (func : α → Sys σ → ρ × Sys σ) (args : α) (st : Sys σ) (k : Nat)
    (hfirst : ∀ i, i < k →
      posix.interrupted error_t (func args (posix.stateBefore func args st i)))
    (hlast : ¬ posix.interrupted error_t (func args (posix.stateBefore func args st k))) :
    (∀ fuel, k < fuel →
      posix.ignore_interruption error_t func args fuel st =
        some ((func args (posix.stateBefore func args st k)).1,
              (func args (posix.stateBefore func args st k)).2, k + 1)) ∧
    (∀ fuel out, posix.ignore_interruption error_t func args fuel st = some out →
      ¬ (error_t out.1 = error_response ∧ out.2.1.errno = EINTR)) :=
  ⟨fun fuel hf => ignore_interruption_after error_t func args k st fuel hfirst hlast hf,
   fun fuel out h => ignore_interruption_result error_t func args fuel st out h⟩

/-- C15, at a call that is interrupted twice and then returns 42: three invocations,
result 42. -/
theorem ignore_interruption_retries_witness :
    (∀ i, i < 2 → posix.interrupted id
      (flaky 42 (posix.stateBefore flaky 42 { errno := 0, kernel := 2 } i))) ∧
    ¬ posix.interrupted id (flaky 42 (posix.stateBefore flaky 42 { errno := 0, kernel := 2 } 2)) ∧
    posix.ignore_interruption id flaky 42 5 { errno := 0, kernel := 2 } =
      some (42, { errno := EINTR, kernel := 0 }, 3) :=
  ⟨by decide, by decide,
   (ignore_interruption_retries id flaky 42 { errno := 0, kernel := 2 } 2
      (by decide) (by decide)).1 5 (by decide)⟩

/-! ## The listening socket -/

/-- C20: on a socket that is not bound `listen` returns `false` and changes nothing.
On a bound socket it returns the result of `listen(2)`, stores that result in
`m_connected` and issues no system call but `listen`; after a successful `listen`
`is_connected()` is `true` and `write` accepts the buffer and the descriptor for the
listening socket. -/
theorem listen_marks_socket_connected (a : AsyncSocket) (max_connections : Int) (ok : Bool)
    (buffer : List Nat) (fd : Int) :
    (a.m_bound = false → a.listen max_connections ok = (false, a)) ∧
    (a.m_bound = true →
      a.listen max_connections ok =
        (ok, { a with m_connected := ok,
                      calls := a.calls ++ [.listen a.read_socket max_connections] }) ∧
      SocketCall.accept a.read_socket ∉
        [SocketCall.listen a.read_socket max_connections] ∧
      (ok = true →
        (a.listen max_connections ok).2.is_connected = true ∧
        ((a.listen max_connections ok).2.write buffer fd).1 = true ∧
        ((a.listen max_connections ok).2.write buffer fd).2.write_buffer = buffer ∧
        ((a.listen max_connections ok).2.write buffer fd).2.write_fd = fd)) := by
  constructor
  · intro h
    simp [AsyncSocket.listen, AsyncSocket.is_bound, h]
  · intro h
    refine ⟨by simp [AsyncSocket.listen, AsyncSocket.is_bound, h], by simp, ?_⟩
    rintro rfl
    simp [AsyncSocket.listen, AsyncSocket.is_bound, AsyncSocket.is_connected,
      AsyncSocket.write, h]

/-- C20, at an unbound socket and at a bound socket whose `listen(2)` succeeds. -/
theorem listen_marks_socket_connected_witness :
    AsyncSocket.unbound.m_bound = false ∧
    AsyncSocket.unbound.listen 8 true = (false, AsyncSocket.unbound) ∧
    AsyncSocket.bound.m_bound = true ∧
    (AsyncSocket.bound.listen 8 true).2.is_connected = true ∧
    ((AsyncSocket.bound.listen 8 true).2.write [104, 105] 7).1 = true :=
  ⟨rfl, (listen_marks_socket_connected AsyncSocket.unbound 8 true [] 0).1 rfl, rfl,
   (((listen_marks_socket_connected AsyncSocket.bound 8 true [104, 105] 7).2 rfl).2.2 rfl).1,
   (((listen_marks_socket_connected AsyncSocket.bound 8 true [104, 105] 7).2 rfl).2.2 rfl).2.1⟩

/-! ## Decoding the inotify stream -/

theorem le32_decode (x : Nat) (h : x < 4294967296) :
    x % 256 + 256 * (x / 256 % 256) + 65536 * (x / 65536 % 256) +
      16777216 * (x / 16777216 % 256) = x := by
  omega

theorem record_bytes_length (e : inotify_event) (h : e.wellFormed) :
    e.bytes.length = sizeof_inotify_event + e.len := by
  simp [inotify_event.bytes, le32, sizeof_inotify_event, h.2.2]
  omega

theorem record_mask (e : inotify_event) (tail : List Nat) (h : e.wellFormed) :
    u32le (e.bytes ++ tail) 4 = e.mask := by
  simp [inotify_event.bytes, le32, u32le]
  exact le32_decode e.mask h.1

theorem record_len (e : inotify_event) (tail : List Nat) (h : e.wellFormed) :
    u32le (e.bytes ++ tail) 12 = e.len := by
  simp [inotify_event.bytes, le32, u32le]
  exact le32_decode e.len h.2.1

theorem record_drop (e : inotify_event) (tail : List Nat) (h : e.wellFormed) :
    (e.bytes ++ tail).drop (sizeof_inotify_event + e.len) = tail := by
  rw [← record_bytes_length e h]
  simp

theorem records_decode (fd : Int) (records : List inotify_event)
    (h : ∀ r ∈ records, r.wellFormed) :
    ∀ fuel, (records.flatMap inotify_event.bytes).length ≤ fuel →
      EventBackend.getevents.records fd fuel (records.flatMap inotify_event.bytes) =
        records.map (fun r => (fd, from_native_fileflags r.mask)) := by
  induction records with
  | nil =>
    intro fuel _
    cases fuel <;> simp [EventBackend.getevents.records]
  | cons r rest ih =>
    intro fuel hfuel
    have hr := h r (List.mem_cons_self _ _)
    have hlen := record_bytes_length r hr
    simp only [List.flatMap_cons, List.length_append, hlen, sizeof_inotify_event] at hfuel
    obtain ⟨f, rfl⟩ : ∃ f, fuel = f + 1 := ⟨fuel - 1, by omega⟩
    have hpos : 0 < (r.bytes ++ rest.flatMap inotify_event.bytes).length := by
      simp only [List.length_append, hlen, sizeof_inotify_event]; omega
    simp only [List.flatMap_cons, EventBackend.getevents.records, hpos, if_true,
      record_mask r _ hr, record_len r _ hr, record_drop r _ hr, List.map_cons]
    rw [ih (fun x hx => h x (List.mem_cons_of_mem _ hx)) f (by omega)]

/-- The record loop on the concatenation of well-formed records: when a ready key is in
the path-watch set (and is not the process-events fd), `getevents` emits one result per
record, in order, with the translated mask, each keyed by the ready key. -/
theorem path_records_keyed_by_ready_key (s : State) (results : List (Int × EventData_t))
    (timeout : Int) (pos : Ready) (records : List inotify_event)
    (hkey : pos.fd ∈ s.fsnotify_fds)
    (hproc : (s.ENABLE_PROCESS_EVENT_TRACKING && pos.fd == s.procnotify_fd) = false)
    (hstream : pos.stream = some (records.flatMap inotify_event.bytes))
    (hwf : ∀ r ∈ records, r.wellFormed) :
    EventBackend.getevents s results timeout (some [pos]) =
      (true, records.map (fun r => (pos.fd, from_native_fileflags r.mask))) := by
  rw [getevents_ready]
  simp only [List.map_cons, List.map_nil, List.flatten_cons, List.flatten_nil,
    List.append_nil, EventBackend.getevents.entry, hproc, hkey, if_true, hstream]
  rw [if_neg (by simp), records_decode pos.fd records hwf _ (le_refl _)]

/-- C19, at a backend with inotify fd 4 and four path watches, so that the watch
descriptors 1 to 4 are in the path-watch set and in the epoll interest list and
descriptor 4 is the inotify instance itself: the file of watch 2 is modified, epoll
reports descriptor 4 and the read yields the well-formed record
`(wd = 2, mask = IN_MODIFY, cookie = 0, len = 0)`.  `getevents` emits one result with
`WriteEvent`, keyed by the ready key 4 and not by the watch descriptor 2 carried in
the record. -/
theorem getevents_attributes_record_to_ready_key :
    State.fourWatches.fsnotify_fd = 4 ∧
    State.fourWatches.fsnotify_fds = [1, 2, 3, 4] ∧
    State.fourWatches.watches = [1, 2, 3, 4] ∧
    hasKey State.fourWatches.interest 4 = true ∧
    Ready.modified.fd = State.fourWatches.fsnotify_fd ∧
    inotify_event.modified.wellFormed ∧
    inotify_event.modified.wd = 2 ∧
    EventBackend.getevents State.fourWatches [] 100 (some [Ready.modified]) =
      (true, [(4, { flags := { WriteEvent := true } })]) ∧
    EventBackend.getevents State.fourWatches [] 100 (some [Ready.modified]) ≠
      (true, [(inotify_event.modified.wd, from_native_fileflags inotify_event.modified.mask)]) := by
  decide

/-! ## Concurrent emits -/

theorem inv_step (old a b : List vfunc) (m : Machine) (pick : Bool)
    (h : m.inv old a b) : (m.step pick).inv old a b := by
  obtain ⟨t1, t2, ⟨queue, locked⟩⟩ := m
  cases pick <;> cases locked <;>
    rcases t1 with p1 | (_ | ⟨c1, p1⟩) | _ <;> rcases t2 with p2 | (_ | ⟨c2, p2⟩) | _ <;>
    simp [Machine.inv, Machine.step, Thread.step] at h ⊢
  all_goals try exact h
  · obtain ⟨rfl, rfl, rfl⟩ := h; simp
  · obtain ⟨rfl, rfl⟩ := h; simp
  · exact Or.inr h
  · obtain ⟨rfl, x, rfl, rfl⟩ := h; simp
  · obtain ⟨x, rfl, rfl⟩ := h; simp
  · obtain ⟨rfl, rfl, rfl⟩ := h; simp
  · obtain ⟨rfl, rfl⟩ := h; simp
  · obtain ⟨rfl, y, rfl, rfl⟩ := h; simp
  · exact Or.inl h
  · obtain ⟨y, rfl, rfl⟩ := h; simp

theorem inv_run (old a b : List vfunc) (schedule : List Bool) :
    ∀ m : Machine, m.inv old a b → (m.run schedule).inv old a b := by
  induction schedule with
  | nil => exact fun m h => h
  | cons pick rest ih =>
    intro m h
    exact ih (m.step pick) (inv_step old a b m pick h)

theorem inv_start {α β : Type} (moved : α → α) (sig : signal α) (args : α)
    (moved2 : β → β) (sig2 : signal β) (args2 : β) (queue : List vfunc) :
    (Machine.start moved sig args moved2 sig2 args2 queue).inv queue
      (Object.enqueue.closures moved sig args)
      (Object.enqueue.closures moved2 sig2 args2) := by
  unfold Machine.start Object.enqueue.thread
  cases sig <;> cases sig2 <;> simp [Machine.inv, Object.enqueue.closures]

theorem inv_contiguous (old a b : List vfunc) (m : Machine) (h : m.inv old a b) :
    contiguous old a b m.shared.queue ∧
    (m.first = .finished → m.second = .finished →
      m.shared.queue = old ++ a ++ b ∨ m.shared.queue = old ++ b ++ a) := by
  obtain ⟨t1, t2, ⟨queue, locked⟩⟩ := m
  rcases t1 with p1 | p1 | _ <;> rcases t2 with p2 | p2 | _ <;>
    simp only [Machine.inv] at h
  · exact ⟨Or.inl ⟨[], List.nil_prefix, by simp [h.2.2.1]⟩, fun h1 => by simp at h1⟩
  · obtain ⟨-, ⟨y, hy, hq⟩, -⟩ := h
    exact ⟨Or.inr (Or.inl ⟨y, ⟨p2, hy⟩, hq⟩), fun h1 => by simp at h1⟩
  · exact ⟨Or.inr (Or.inl ⟨b, List.prefix_refl _, h.2.1⟩), fun h1 => by simp at h1⟩
  · obtain ⟨-, ⟨x, hx, hq⟩, -⟩ := h
    exact ⟨Or.inl ⟨x, ⟨p1, hx⟩, hq⟩, fun h1 => by simp at h1⟩
  · obtain ⟨⟨x, hx, hq⟩, -⟩ := h
    exact ⟨Or.inr (Or.inr (Or.inr ⟨x, ⟨p1, hx⟩, hq⟩)), fun h1 => by simp at h1⟩
  · exact ⟨Or.inl ⟨a, List.prefix_refl _, h.2.1⟩, fun _ h2 => by simp at h2⟩
  · obtain ⟨⟨y, hy, hq⟩, -⟩ := h
    exact ⟨Or.inr (Or.inr (Or.inl ⟨y, ⟨p2, hy⟩, hq⟩)), fun _ h2 => by simp at h2⟩
  · refine ⟨?_, fun _ _ => h.1⟩
    rcases h.1 with hq | hq
    · exact Or.inr (Or.inr (Or.inl ⟨b, List.prefix_refl _, hq⟩))
    · exact Or.inr (Or.inr (Or.inr ⟨a, List.prefix_refl _, hq⟩))

/-- C16: let two threads call `Object::enqueue` at the same time, one appending the
closures `a` of its signal and the other the closures `b`, on the queue `old`.  After
every interleaving of their steps the queue is `old` followed by a first part of one
block alone, or by one whole block and a first part of the other: the closures of the
two calls are never interleaved.  When both calls have returned, the queue is `old`
followed by the two whole blocks in one of the two orders. -/
theorem concurrent_enqueues_keep_blocks {α β : Type} (moved : α → α) (sig : signal α)
    (args : α) (moved2 : β → β) (sig2 : signal β) (args2 : β) (old : List vfunc)
    (schedule : List Bool) :
    contiguous old (Object.enqueue.closures moved sig args)
      (Object.enqueue.closures moved2 sig2 args2)
      ((Machine.start moved sig args moved2 sig2 args2 old).run schedule).shared.queue ∧
    (((Machine.start moved sig args moved2 sig2 args2 old).run schedule).first = .finished →
     ((Machine.start moved sig args moved2 sig2 args2 old).run schedule).second = .finished →
      ((Machine.start moved sig args moved2 sig2 args2 old).run schedule).shared.queue =
        old ++ Object.enqueue.closures moved sig args ++
          Object.enqueue.closures moved2 sig2 args2 ∨
      ((Machine.start moved sig args moved2 sig2 args2 old).run schedule).shared.queue =
        old ++ Object.enqueue.closures moved2 sig2 args2 ++
          Object.enqueue.closures moved sig args) :=
  inv_contiguous _ _ _ _
    (inv_run _ _ _ schedule _ (inv_start moved sig args moved2 sig2 args2 old))

/-- C16, at a signal with two subscribers and a signal with one, under a schedule in
which the second thread tries to enter while the first holds the lock: both calls
return and the queue holds the block of the first call followed by the block of the
second. -/
theorem concurrent_enqueues_keep_blocks_witness :
    ((Machine.start id (connectAll [.function (echo "a1:"), .function (echo "a2:")]) "x"
        id (connectAll [.function (echo "b1:")]) "y" []).run
      [false, true, false, true, false, false, true, true, true]).first = .finished ∧
    ((Machine.start id (connectAll [.function (echo "a1:"), .function (echo "a2:")]) "x"
        id (connectAll [.function (echo "b1:")]) "y" []).run
      [false, true, false, true, false, false, true, true, true]).second = .finished ∧
    (((Machine.start id (connectAll [.function (echo "a1:"), .function (echo "a2:")]) "x"
        id (connectAll [.function (echo "b1:")]) "y" []).run
      [false, true, false, true, false, false, true, true, true]).shared.queue.map
        (fun c => (c World.empty).map World.output) =
      [some ["a1:x"], some ["a2:x"], some ["b1:y"]]) ∧
    (((Machine.start id (connectAll [.function (echo "a1:"), .function (echo "a2:")]) "x"
        id (connectAll [.function (echo "b1:")]) "y" []).run
      [false, true, false, true, false, false, true, true, true]).shared.queue =
      [] ++ Object.enqueue.closures id
          (connectAll [.function (echo "a1:"), .function (echo "a2:")]) "x" ++
        Object.enqueue.closures id (connectAll [.function (echo "b1:")]) "y" ∨
     ((Machine.start id (connectAll [.function (echo "a1:"), .function (echo "a2:")]) "x"
        id (connectAll [.function (echo "b1:")]) "y" []).run
      [false, true, false, true, false, false, true, true, true]).shared.queue =
      [] ++ Object.enqueue.closures id (connectAll [.function (echo "b1:")]) "y" ++
        Object.enqueue.closures id
          (connectAll [.function (echo "a1:"), .function (echo "a2:")]) "x") :=
  ⟨rfl, rfl, by decide,
   (concurrent_enqueues_keep_blocks id
      (connectAll [.function (echo "a1:"), .function (echo "a2:")]) "x"
      id (connectAll [.function (echo "b1:")]) "y" []
      [false, true, false, true, false, false, true, true, true]).2 rfl rfl⟩

/-! ## The Process setters and the forked child -/

theorem setExecutable_argv0 (p : Process) (e : String) (fault : Option Nat) (h : p.argv0) :
    ∃ r, p.setExecutable e fault = some r ∧ r.2.argv0 := by
  unfold Process.setExecutable stat
  cases fault with
  | some err =>
    simp only [if_neg error_ne_success]
    exact ⟨_, rfl, h⟩
  | none =>
    simp only [if_true]
    cases hx : p.m_executable.isEmpty with
    | true =>
      simp only [if_true]
      exact ⟨_, rfl, fun _ => rfl⟩
    | false =>
      have hhead := h hx
      cases ha : p.m_arguments with
      | nil => rw [ha] at hhead; simp at hhead
      | cons a rest =>
        simp only [Bool.false_eq_true, if_false]
        exact ⟨_, rfl, fun _ => rfl⟩

theorem setArguments_argv0 (p : Process) (a : List String) : (p.setArguments a).argv0 := by
  unfold Process.setArguments Process.argv0
  cases hx : p.m_executable.isEmpty <;> simp [hx]

theorem run_argv0 (calls : List ProcessCall) :
    ∀ p : Process, p.argv0 → ∃ q, p.run calls = some q ∧ q.argv0 := by
  induction calls with
  | nil => exact fun p h => ⟨p, rfl, h⟩
  | cons c rest ih =>
    intro p h
    cases c with
    | setExecutable e fault =>
      obtain ⟨r, hr, hrv⟩ := setExecutable_argv0 p e fault h
      obtain ⟨q, hq, hqv⟩ := ih r.2 hrv
      exact ⟨q, by simp [Process.run, hr, hq], hqv⟩
    | setArguments a =>
      obtain ⟨q, hq, hqv⟩ := ih _ (setArguments_argv0 p a)
      exact ⟨q, by simp [Process.run, hq], hqv⟩

/-- C23: from the constructor, every sequence of `setExecutable` and `setArguments`
calls, whatever the outcomes of the `stat` checks and the prior `errno`, runs without
ever writing to the front of an empty argument list, and in the state it reaches a
non-empty `m_executable` is the first element of a non-empty `m_arguments`. -/
theorem executable_is_first_argument (errno : Nat) (calls : List ProcessCall) :
    ∃ q, (Process.new errno).run calls = some q ∧
      (q.m_executable ≠ "" →
        q.m_arguments ≠ [] ∧ q.m_arguments.head? = some q.m_executable) := by
  obtain ⟨q, hq, hv⟩ := run_argv0 calls (Process.new errno)
    (fun h => absurd h (show ¬ ("".isEmpty = false) by decide))
  refine ⟨q, hq, fun hne => ?_⟩
  have hx : q.m_executable.isEmpty = false := by
    cases hb : q.m_executable.isEmpty with
    | false => rfl
    | true => exact absurd ((String.isEmpty_iff _).1 hb) hne
  have hh := hv hx
  refine ⟨?_, hh⟩
  intro hnil
  rw [hnil] at hh
  simp at hh

/-- C23, at the calls `setArguments(["-l"])`, a refused and an accepted
`setExecutable`, and a second accepted `setExecutable`. -/
theorem executable_is_first_argument_witness :
    (Process.new 0).run ProcessCall.sample = some Process.sample ∧
    Process.sample.m_executable ≠ "" ∧
    Process.sample.m_arguments ≠ [] ∧
    Process.sample.m_arguments.head? = some Process.sample.m_executable :=
  ⟨by decide, by decide, by
    obtain ⟨q, hq, hv⟩ := executable_is_first_argument 0 ProcessCall.sample
    obtain rfl : q = Process.sample := Option.some.inj (hq.symm.trans (by decide))
    exact hv (by decide)⟩

/-- C24, at a thread whose `errno` is still `ENOENT` from an earlier call and a `stat`
that succeeds: `setWorkingDirectory("/tmp")` stores `/tmp` and `setExecutable("/bin/ls")`
stores `/bin/ls` as executable and first argument, yet both return `false`. -/
theorem setters_return_stale_errno :
    (Process.new ENOENT).setWorkingDirectory "/tmp" none = (false, Process.inTmp ENOENT) ∧
    (Process.inTmp ENOENT).m_workingdir = "/tmp" ∧
    (Process.new ENOENT).setExecutable "/bin/ls" none = some (false, Process.withLs ENOENT) ∧
    (Process.withLs ENOENT).m_executable = "/bin/ls" := by
  decide

theorem limits_assert (calls : ChildCalls) (hcalls : ∀ i, calls.setrlimit i = success_response)
    (i : Nat) (limit : Int × Nat × Nat) (rest : List (Int × Nat × Nat)) :
    Process.start.limits calls i (limit :: rest) =
      .error "::setrlimit(limit.first, &limit.second) != posix::success_response" := by
  simp [Process.start.limits, assertE, hcalls, bind, Except.bind, throw, throwThe,
    MonadExceptOf.throw]

/-- C25, for every non-empty `m_limits` and all ids: when every call of the child
succeeds, the first `setrlimit`, which returns 0, fails the check
`::setrlimit(..) != posix::success_response`, so the child stops on that assertion and
does not arrive at `execve`. -/
theorem child_asserts_on_successful_setrlimit (limit : Int × Nat × Nat)
    (rest : List (Int × Nat × Nat)) (m_uid m_gid m_euid m_egid : Nat) :
    Process.start.child (limit :: rest) m_uid m_gid m_euid m_egid ChildCalls.allSucceed =
      .assertion "::setrlimit(limit.first, &limit.second) != posix::success_response" := by
  unfold Process.start.child Process.start.checks
  rw [limits_assert ChildCalls.allSucceed (fun _ => rfl)]
  rfl

/-! ## Capability sets -/

/-- C22, at the effective set of an array whose only set bit is bit 0 of word 0 (the
flag `chown`, value 0): `isset(chown)` is true, but `value()` is `2 ^ 32`, whose bit 0
is clear and whose bit 32 is set although `isset` of the flag with value 32 is false. -/
theorem value_puts_low_word_high :
    capability_data_t.effective.isset [1, 0, 0, 0, 0, 0] 0 = true ∧
    capability_data_t.effective.value [1, 0, 0, 0, 0, 0] = 2 ^ 32 ∧
    (capability_data_t.effective.value [1, 0, 0, 0, 0, 0]).testBit 0 = false ∧
    (capability_data_t.effective.value [1, 0, 0, 0, 0, 0]).testBit 32 = true ∧
    capability_data_t.effective.isset [1, 0, 0, 0, 0, 0] 32 = false := by
  decide

theorem mask_eq (f : Nat) : capability_t.mask f = 2 ^ (f % 32) := by
  have h : f &&& 0x1F = f % 32 := Nat.and_pow_two_sub_one_eq_mod f 5
  rw [capability_t.mask, h, Nat.one_shiftLeft]

theorem and_two_pow_ne_zero (w n : Nat) : (w &&& 2 ^ n != 0) = w.testBit n := by
  cases h : w.testBit n with
  | true =>
    have hb : (w &&& 2 ^ n).testBit n = true := by
      simp [Nat.testBit_and, h, Nat.testBit_two_pow_self]
    have hne : w &&& 2 ^ n ≠ 0 := by
      intro h0
      rw [h0, Nat.zero_testBit] at hb
      exact absurd hb (by decide)
    simpa using hne
  | false =>
    have h0 : w &&& 2 ^ n = 0 := by
      apply Nat.eq_of_testBit_eq
      intro i
      rw [Nat.testBit_and, Nat.testBit_two_pow, Nat.zero_testBit]
      by_cases hi : n = i
      · subst hi; simp [h]
      · simp [hi]
    simp [h0]

theorem isset_eq_testBit (c : capability_t) (mem : List Nat) (g : Nat) :
    c.isset mem g = (mem.getD (c.word g) 0).testBit (g % 32) := by
  rw [capability_t.isset, mask_eq, and_two_pow_ne_zero]

theorem getD_set (l : List Nat) (i j v : Nat) (hi : i < l.length) :
    (l.set i v).getD j 0 = if i = j then v else l.getD j 0 := by
  simp only [List.getD_eq_getElem?_getD, List.getElem?_set]
  split_ifs with h1
  · rfl
  · rfl

theorem word_facts (c : capability_t) (f : Nat) (hc : c.data < CAPTYPE_COUNT) (hf : f < 64) :
    c.word f = c.data + (f / 32) * 3 ∧ c.word f < 6 ∧ c.word f % 3 = c.data := by
  have h : c.word f = c.data + (f / 32) * 3 := by
    simp [capability_t.word, CAPTYPE_COUNT, Nat.shiftRight_eq_div_pow]
  simp only [CAPTYPE_COUNT] at hc
  refine ⟨h, ?_, ?_⟩ <;> omega

theorem isset_after_write (c : capability_t) (mem : List Nat) (f g w : Nat)
    (hc : c.data < CAPTYPE_COUNT) (hm : mem.length = CAPABILITY_U32S * CAPTYPE_COUNT)
    (hf : f < 64) (hg : g < 64) :
    c.isset (mem.set (c.word f) w) g =
      if f / 32 = g / 32 then w.testBit (g % 32) else c.isset mem g := by
  obtain ⟨hwf, hlt, -⟩ := word_facts c f hc hf
  obtain ⟨hwg, -, -⟩ := word_facts c g hc hg
  have hlen : c.word f < mem.length := by
    rw [hm]; simpa [CAPABILITY_U32S, CAPTYPE_COUNT] using hlt
  rw [isset_eq_testBit, getD_set _ _ _ _ hlen, isset_eq_testBit]
  by_cases h : f / 32 = g / 32
  · have : c.word f = c.word g := by rw [hwf, hwg, h]
    simp [h, this]
  · have : c.word f ≠ c.word g := by rw [hwf, hwg]; omega
    simp [h, this]

theorem other_words_kept (c : capability_t) (mem : List Nat) (f w i : Nat)
    (hc : c.data < CAPTYPE_COUNT) (hm : mem.length = CAPABILITY_U32S * CAPTYPE_COUNT)
    (hf : f < 64) (hi : i % CAPTYPE_COUNT ≠ c.data) :
    (mem.set (c.word f) w).getD i 0 = mem.getD i 0 := by
  obtain ⟨-, hlt, hmod⟩ := word_facts c f hc hf
  have hlen : c.word f < mem.length := by
    rw [hm]; simpa [CAPABILITY_U32S, CAPTYPE_COUNT] using hlt
  rw [getD_set _ _ _ _ hlen, if_neg]
  intro h
  rw [← h] at hi
  exact hi (by simpa [CAPTYPE_COUNT] using hmod)

theorem same_flag_iff (f g : Nat) : (f / 32 = g / 32 ∧ f % 32 = g % 32) ↔ g = f := by
  omega

/-- C21: for a `capability_t` pointing at one of the three sets of the six-word array
and flags `f`, `g` with values in 0..63: after `set(f)`, `isset(g)` holds iff `g = f`
or it held before; after `unset(f)`, iff `g != f` and it held before; after
`toggle(f)`, `isset(g)` is flipped iff `g = f`.  Each operation keeps the length of
the array and leaves every word of the other two sets (the words whose index is not
congruent to this set's offset modulo 3) unchanged. -/
theorem capability_acts_as_flag_set (c : capability_t) (mem : List Nat) (f g : Nat)
    (hc : c.data < CAPTYPE_COUNT) (hm : mem.length = CAPABILITY_U32S * CAPTYPE_COUNT)
    (hf : f < 64) (hg : g < 64) :
    (c.isset (c.set mem f) g = (decide (g = f) || c.isset mem g)) ∧
    (c.isset (c.unset mem f) g = (decide (g ≠ f) && c.isset mem g)) ∧
    (c.isset (c.toggle mem f) g = if g = f then !c.isset mem g else c.isset mem g) ∧
    (∀ i, i % CAPTYPE_COUNT ≠ c.data →
      (c.set mem f).getD i 0 = mem.getD i 0 ∧
      (c.unset mem f).getD i 0 = mem.getD i 0 ∧
      (c.toggle mem f).getD i 0 = mem.getD i 0) ∧
    (c.set mem f).length = mem.length ∧ (c.unset mem f).length = mem.length ∧
    (c.toggle mem f).length = mem.length := by
  have hword : f / 32 = g / 32 → mem.getD (c.word f) 0 = mem.getD (c.word g) 0 := by
    intro h
    rw [(word_facts c f hc hf).1, (word_facts c g hc hg).1, h]
  have hbit : g % 32 < 32 := Nat.mod_lt _ (by decide)
  refine ⟨?_, ?_, ?_, ?_, ?_, ?_, ?_⟩
  · rw [capability_t.set, isset_after_write c mem f g _ hc hm hf hg, mask_eq,
      Nat.testBit_or, Nat.testBit_two_pow]
    by_cases h1 : f / 32 = g / 32
    · rw [if_pos h1, hword h1, ← isset_eq_testBit]
      by_cases h2 : f % 32 = g % 32
      · have : g = f := (same_flag_iff f g).1 ⟨h1, h2⟩
        simp [h2, this]
      · have : g ≠ f := fun h => h2 (by rw [h])
        simp [h2, this]
    · have : g ≠ f := fun h => h1 (by rw [h])
      simp [h1, this]
  · have hff : (0xFFFFFFFF : Nat) = 2 ^ 32 - 1 := by decide
    rw [capability_t.unset, isset_after_write c mem f g _ hc hm hf hg, mask_eq,
      Nat.testBit_and, Nat.testBit_xor, hff, Nat.testBit_two_pow_sub_one,
      Nat.testBit_two_pow]
    by_cases h1 : f / 32 = g / 32
    · rw [if_pos h1, hword h1, ← isset_eq_testBit]
      by_cases h2 : f % 32 = g % 32
      · have : g = f := (same_flag_iff f g).1 ⟨h1, h2⟩
        simp [h2, this, hbit]
      · have : g ≠ f := fun h => h2 (by rw [h])
        simp [h2, this, hbit]
    · have : g ≠ f := fun h => h1 (by rw [h])
      simp [h1, this]
  · rw [capability_t.toggle, isset_after_write c mem f g _ hc hm hf hg, mask_eq,
      Nat.testBit_xor, Nat.testBit_two_pow]
    by_cases h1 : f / 32 = g / 32
    · rw [if_pos h1, hword h1, ← isset_eq_testBit]
      by_cases h2 : f % 32 = g % 32
      · have : g = f := (same_flag_iff f g).1 ⟨h1, h2⟩
        simp [h2, this]
      · have : g ≠ f := fun h => h2 (by rw [h])
        simp [h2, this]
    · have : g ≠ f := fun h => h1 (by rw [h])
      simp [h1, this]
  · intro i hi
    exact ⟨other_words_kept c mem f _ i hc hm hf hi, other_words_kept c mem f _ i hc hm hf hi,
      other_words_kept c mem f _ i hc hm hf hi⟩
  · simp [capability_t.set]
  · simp [capability_t.unset]
  · simp [capability_t.toggle]

/-- C21, at the permitted set of a sample array and the flag with value 33: setting
it makes `isset` true, unsetting or toggling it afterwards makes it false again, and
word 0 of the effective set is untouched. -/
theorem capability_acts_as_flag_set_witness :
    capability_data_t.permitted.data < CAPTYPE_COUNT ∧
    capability_data_t.sample.length = CAPABILITY_U32S * CAPTYPE_COUNT ∧
    (33 : Nat) < 64 ∧
    capability_data_t.permitted.isset
        (capability_data_t.permitted.set capability_data_t.sample 33) 33 =
      (decide (33 = 33) || capability_data_t.permitted.isset capability_data_t.sample 33) ∧
    capability_data_t.permitted.isset
        (capability_data_t.permitted.set capability_data_t.sample 33) 33 = true ∧
    (0 % CAPTYPE_COUNT ≠ capability_data_t.permitted.data) ∧
    (capability_data_t.permitted.set capability_data_t.sample 33).getD 0 0 =
      capability_data_t.sample.getD 0 0 :=
  ⟨by decide, by decide, by decide,
   (capability_acts_as_flag_set capability_data_t.permitted capability_data_t.sample 33 33
      (by decide) (by decide) (by decide) (by decide)).1,
   by decide, by decide,
   ((capability_acts_as_flag_set capability_data_t.permitted capability_data_t.sample 33 33
      (by decide) (by decide) (by decide) (by decide)).2.2.2.1 0 (by decide)).1⟩

end pdtk
